import Mathlib

/-!
Verification development for the LIPID+ annotation pipeline and its
documentation website.

The website scripts (`js/common.js`, `js/docs.js`) are embedded directly from
their source.  The annotation core (database search, spectral matcher, chain
composition resolver, aggregator/namer) is distributed separately from this
documentation repository; those components are modelled from the
specification and from `TUTORIAL.md`, as indicated in the doc comment of each
definition.
-/

namespace LipidPlus

/-! ## Generic first-maximum selection

Several components pick the best element of a candidate list (greedy peak
pairing, database-hit selection, residual minimisation).  `argBest better l`
returns the first element `x` of `l` such that no element of `l` is `better`
than `x`, matching the usual fold-with-strict-improvement idiom. -/

def argBest (better : α → α → Prop) [DecidableRel better] : List α → Option α
  | [] => none
  | x :: xs =>
    match argBest better xs with
    | none => some x
    | some y => if better y x then some y else some x

/-! ## Aggregator: confidence merging (modelled from the spec) -/

/-- Modelled from the spec: the Aggregator is not part of this repository.
`pred_confidence` is the arithmetic mean of whichever of
adduct confidence, class confidence and top-rank chain confidence are
present; missing components are excluded (not treated as zero), and if none
are present the result is missing. -/
def predConfidence (adduct cls chain : Option ℚ) : Option ℚ :=
  let present := [adduct, cls, chain].filterMap id
  if present.isEmpty then none else some (present.sum / (present.length : ℚ))

/-! ## Chain compositions and canonical ordering (modelled from the spec) -/

/-- Modelled from the spec: the Chain Composition Resolver is not part of this
repository.  `chainBefore a b` holds when chain `a` (carbon count, double-bond
count) comes no later than chain `b` in the canonical order: descending
carbon count, ties broken by descending double-bond count. -/
def chainBefore (a b : ℕ × ℕ) : Prop :=
  b.1 < a.1 ∨ (a.1 = b.1 ∧ b.2 ≤ a.2)

instance : DecidableRel chainBefore :=
  fun a b => inferInstanceAs (Decidable (b.1 < a.1 ∨ (a.1 = b.1 ∧ b.2 ≤ a.2)))

instance : IsTotal (ℕ × ℕ) chainBefore :=
  ⟨fun a b => by
    unfold chainBefore
    rcases lt_trichotomy a.1 b.1 with h | h | h
    · exact Or.inr (Or.inl h)
    · rcases le_total a.2 b.2 with h2 | h2
      · exact Or.inr (Or.inr ⟨h.symm, h2⟩)
      · exact Or.inl (Or.inr ⟨h, h2⟩)
    · exact Or.inl (Or.inl h)⟩

instance : IsTrans (ℕ × ℕ) chainBefore :=
  ⟨fun a b c hab hbc => by
    unfold chainBefore at *
    rcases hab with h1 | ⟨h1, h1d⟩ <;> rcases hbc with h2 | ⟨h2, h2d⟩
    · exact Or.inl (h2.trans h1)
    · exact Or.inl (h2 ▸ h1)
    · exact Or.inl (h1 ▸ h2)
    · exact Or.inr ⟨h1.trans h2, h2d.trans h1d⟩⟩

instance : IsAntisymm (ℕ × ℕ) chainBefore :=
  ⟨fun a b hab hba => by
    unfold chainBefore at *
    rcases hab with h1 | ⟨h1, h1d⟩ <;> rcases hba with h2 | ⟨h2, h2d⟩
    · exact absurd (h1.trans h2) (lt_irrefl _)
    · exact absurd h1 (h2 ▸ lt_irrefl _)
    · exact absurd h2 (h1 ▸ lt_irrefl _)
    · exact Prod.ext h1 (le_antisymm h2d h1d)⟩

/-- Modelled from the spec: canonicalization sorts the chains of a
composition into the canonical order (descending carbon count, ties broken
by descending double-bond count). -/
def canonicalize (l : List (ℕ × ℕ)) : List (ℕ × ℕ) :=
  List.insertionSort chainBefore l

/-- A chain composition is canonical when it is sorted in the canonical
order. -/
def IsCanonical (l : List (ℕ × ℕ)) : Prop :=
  List.Sorted chainBefore l

instance (l : List (ℕ × ℕ)) : Decidable (IsCanonical l) :=
  inferInstanceAs (Decidable (List.Pairwise chainBefore l))

/-! ## Aggregator: canonical name formatting (modelled from the spec) -/

/-- Modelled from the spec: a single chain is displayed as
carbon count, a colon, then double-bond count. -/
def formatChain (p : ℕ × ℕ) : String :=
  toString p.1 ++ ":" ++ toString p.2

/-- Modelled from the spec: the lipid name is the class label, a space, and
the canonically ordered chains joined by underscores, with `(0,0)` chains
(absent slots) omitted from the displayed string. -/
def lipidName (cls : String) (chains : List (ℕ × ℕ)) : String :=
  cls ++ " " ++
    String.intercalate "_"
      (((canonicalize chains).filter (fun p => p ≠ (0, 0))).map formatChain)

/-- Modelled from the spec: `num_chain` counts every chain slot of the
composition, including `(0,0)` absent slots. -/
def numChain (chains : List (ℕ × ℕ)) : ℕ :=
  chains.length

/-! ## Chain Composition Resolver: single-chain mass balance
(modelled from the spec) -/

/-- Monoisotopic mass of hydrogen in micro-Daltons (the solver works in
exact integer micro-Daltons, a fixed scaling of the mass constants). -/
def massH : ℤ := 1007825

/-- Monoisotopic mass of carbon in micro-Daltons. -/
def massC : ℤ := 12000000

/-- Monoisotopic mass of oxygen in micro-Daltons. -/
def massO : ℤ := 15994915

/-- Modelled from the spec: the mass of a fatty-acyl chain with `c` carbons
and `db` double bonds, from mass constants alone (carbon skeleton, hydrogens
reduced by two per double bond, carboxyl oxygens), in micro-Daltons. -/
def chainMass (c db : ℕ) : ℤ :=
  massC * c + (2 * (c : ℤ) - 2 * (db : ℤ)) * massH + 2 * massO

/-- Modelled from the spec: the small-integer search space of
(carbon, double bond) pairs considered by the single-chain solver. -/
def chainSearchSpace : List (ℕ × ℕ) :=
  (List.range 41).flatMap (fun c => (List.range 7).map (fun d => (c, d)))

/-- Modelled from the spec: the residual mass error (in micro-Daltons) of
assigning the chain `p` to a feature with the given neutral mass, relative
to the class backbone mass. -/
def residual (backbone neutralMass : ℤ) (p : ℕ × ℕ) : ℤ :=
  |neutralMass - (backbone + chainMass p.1 p.2)|

/-- Modelled from the spec: the single-chain solver searches the small
integer pairs whose residual is within tolerance and returns the one
minimising the residual mass error; no statistical model is involved, so the
result is a deterministic function of the mass constants, the class backbone
mass, the neutral mass and the tolerance. -/
def solveSingleChain (backbone neutralMass tol : ℤ) : Option (ℕ × ℕ) :=
  argBest (fun a b => residual backbone neutralMass a < residual backbone neutralMass b)
    (chainSearchSpace.filter (fun p => residual backbone neutralMass p ≤ tol))

/-! ## Spectral Matcher (modelled from the spec)

The matcher is modelled over exact rationals for m/z and intensity, with
real-valued scores.  Peaks are paired greedily by descending product of
intensities, each peak usable at most once, keeping only pairs within the
absolute m/z tolerance; unmatched peaks contribute no similarity mass.  For
the weighted variants the spec leaves the exact power-law exponent open and
directs implementers to a literature-standard choice; the square-root
transform is used.  Since the transform is strictly monotone, applying it
before or after the greedy pairing yields the same pairing, so the pairing
is computed on the raw intensities and the transform is applied in the
score. -/

/-- A spectrum: a list of (m/z, intensity) pairs. -/
abbrev Spectrum := List (ℚ × ℚ)

/-- Modelled from the spec: a well-formed spectrum has strictly increasing
m/z values and positive intensities (a non-positive intensity is malformed
and rejected at parse time). -/
def WellFormed (s : Spectrum) : Prop :=
  List.Pairwise (fun a b => a.1 < b.1) s ∧ ∀ p ∈ s, 0 < p.2

instance (s : Spectrum) : Decidable (WellFormed s) :=
  inferInstanceAs (Decidable (_ ∧ _))

/-- The product of intensities of a candidate peak pair, the greedy
priority. -/
def pairKey (x : (ℚ × ℚ) × (ℚ × ℚ)) : ℚ :=
  x.1.2 * x.2.2

/-- A candidate pair is better when its intensity product is larger. -/
def betterPair (x y : (ℚ × ℚ) × (ℚ × ℚ)) : Prop :=
  pairKey y < pairKey x

instance : DecidableRel betterPair :=
  fun x y => inferInstanceAs (Decidable (pairKey y < pairKey x))

/-- Modelled from the spec: all candidate peak pairs within the absolute
m/z tolerance, in query-major document order. -/
def matchCands (tol : ℚ) (q r : Spectrum) : List ((ℚ × ℚ) × (ℚ × ℚ)) :=
  q.flatMap (fun a => (r.filter (fun b => decide (|a.1 - b.1| ≤ tol))).map (fun b => (a, b)))

/-- Removes the first occurrence of a peak from a spectrum (the model of
consuming a used peak). -/
def eraseFirst : Spectrum → (ℚ × ℚ) → Spectrum
  | [], _ => []
  | x :: xs, a => if x = a then xs else x :: eraseFirst xs a

/-- Modelled from the spec: greedy peak pairing by descending product of
intensities.  Repeatedly the best remaining candidate pair is taken and both
its peaks are removed; the fuel bounds the number of rounds.  Returns the
matched pairs and the unmatched peaks of both spectra. -/
def greedyMatch (tol : ℚ) : ℕ → Spectrum → Spectrum →
    List ((ℚ × ℚ) × (ℚ × ℚ)) × Spectrum × Spectrum
  | 0, q, r => ([], q, r)
  | fuel + 1, q, r =>
    match argBest betterPair (matchCands tol q r) with
    | none => ([], q, r)
    | some (a, b) =>
      let rest := greedyMatch tol fuel (eraseFirst q a) (eraseFirst r b)
      ((a, b) :: rest.1, rest.2)

/-- The matched peak pairs of two spectra. -/
def matchedPairs (tol : ℚ) (q r : Spectrum) : List ((ℚ × ℚ) × (ℚ × ℚ)) :=
  (greedyMatch tol q.length q r).1

/-- The unmatched query peaks. -/
def leftoverQ (tol : ℚ) (q r : Spectrum) : Spectrum :=
  (greedyMatch tol q.length q r).2.1

/-- The unmatched reference peaks. -/
def leftoverR (tol : ℚ) (q r : Spectrum) : Spectrum :=
  (greedyMatch tol q.length q r).2.2

/-- The matched similarity mass: the sum over matched pairs of the product
of (transformed) intensities. -/
noncomputable def sumScore (g : ℚ → ℝ) (ps : List ((ℚ × ℚ) × (ℚ × ℚ))) : ℝ :=
  (ps.map (fun x => g x.1.2 * g x.2.2)).sum

/-- The sum of squared (transformed) intensities of a whole spectrum. -/
noncomputable def sumSq (g : ℚ → ℝ) (s : Spectrum) : ℝ :=
  (s.map (fun p => g p.2 ^ 2)).sum

/-- The full (unmatched-inclusive) L2 norm of a spectrum. -/
noncomputable def normTerm (g : ℚ → ℝ) (s : Spectrum) : ℝ :=
  Real.sqrt (sumSq g s)

/-- Modelled from the spec: cosine of the matched intensity vectors
normalized by the full L2 norms of both spectra, so unmatched peaks lower
the score. -/
noncomputable def cosineWith (g : ℚ → ℝ) (tol : ℚ) (q r : Spectrum) : ℝ :=
  sumScore g (matchedPairs tol q r) / (normTerm g q * normTerm g r)

/-- Modelled from the spec: the `dot_product` method. -/
noncomputable def dot_product (tol : ℚ) (q r : Spectrum) : ℝ :=
  cosineWith (fun x => (x : ℝ)) tol q r

/-- Modelled from the spec: the `weighted_dot_product` method, the cosine of
the square-root-transformed intensities. -/
noncomputable def weighted_dot_product (tol : ℚ) (q r : Spectrum) : ℝ :=
  cosineWith (fun x => Real.sqrt (x : ℝ)) tol q r

/-- The total (transformed) intensity of a spectrum, the normalization
constant of its intensity distribution. -/
noncomputable def sumInt (g : ℚ → ℝ) (s : Spectrum) : ℝ :=
  (s.map (fun p => g p.2)).sum

/-- The aligned (query, reference) intensity pairs: matched pairs carry both
intensities, unmatched peaks are paired with zero. -/
noncomputable def alignedWith (g : ℚ → ℝ) (tol : ℚ) (q r : Spectrum) : List (ℝ × ℝ) :=
  (matchedPairs tol q r).map (fun x => (g x.1.2, g x.2.2)) ++
    ((leftoverQ tol q r).map (fun p => (g p.2, (0 : ℝ))) ++
      (leftoverR tol q r).map (fun p => ((0 : ℝ), g p.2)))

/-- The aligned pair of normalized intensity distributions. -/
noncomputable def alignedDist (g : ℚ → ℝ) (tol : ℚ) (q r : Spectrum) : List (ℝ × ℝ) :=
  (alignedWith g tol q r).map (fun x => (x.1 / sumInt g q, x.2 / sumInt g r))

/-- The pointwise Jensen-Shannon term: twice the Shannon entropy of the
merged (averaged) distribution minus the entropies of the two inputs. -/
noncomputable def jsTerm (x : ℝ × ℝ) : ℝ :=
  2 * Real.negMulLog ((x.1 + x.2) / 2) - Real.negMulLog x.1 - Real.negMulLog x.2

/-- Modelled from the spec: entropy similarity from the Shannon entropy of
the merged intensity distribution versus the average entropy of the inputs,
scaled into the unit interval (the literature-standard Jensen-Shannon form);
well-formed but empty spectra score 0. -/
noncomputable def entropyCore (g : ℚ → ℝ) (tol : ℚ) (q r : Spectrum) : ℝ :=
  if q = [] ∨ r = [] then 0
  else 1 - ((alignedDist g tol q r).map jsTerm).sum / (2 * Real.log 2)

/-- Modelled from the spec: the `unweighted_entropy_similarity` method,
which skips the intensity reweighting. -/
noncomputable def unweighted_entropy_similarity (tol : ℚ) (q r : Spectrum) : ℝ :=
  entropyCore (fun x => (x : ℝ)) tol q r

/-- Modelled from the spec: the `entropy_similarity` method, with the
square-root intensity reweighting applied before the entropy computation. -/
noncomputable def entropy_similarity (tol : ℚ) (q r : Spectrum) : ℝ :=
  entropyCore (fun x => Real.sqrt (x : ℝ)) tol q r

/-- The four selectable similarity methods. -/
inductive Method where
  | dot_product
  | weighted_dot_product
  | entropy_similarity
  | unweighted_entropy_similarity
deriving DecidableEq

/-- The Spectral Matcher: dispatches on the method selector. -/
noncomputable def similarity : Method → ℚ → Spectrum → Spectrum → ℝ
  | Method.dot_product => dot_product
  | Method.weighted_dot_product => weighted_dot_product
  | Method.entropy_similarity => entropy_similarity
  | Method.unweighted_entropy_similarity => unweighted_entropy_similarity

/-! ## Database Search Engine (modelled from the spec) -/

/-- Modelled from the spec: a reference entry of the spectral store, with
its per-adduct theoretical precursor m/z values as an association list. -/
structure RefEntry where
  name : String
  formula : String
  clsLabel : String
  category : String
  theoMz : List (String × ℚ)
  spectrum : Spectrum
deriving DecidableEq

/-- Modelled from the spec: an input feature. -/
structure Feature where
  idx : String
  precursorMz : ℚ
  ionMode : String
  adduct : String
  ms2 : Spectrum
deriving DecidableEq

/-- Modelled from the spec: the database-search configuration surface. -/
structure SearchConfig where
  ms1Tol : ℚ
  isPpm : Bool
  ms2Tol : ℚ
  threshold : ℚ
  method : Method

/-- Modelled from the spec: the MS1 window test, in ppm
(`|delta| / reference * 1e6 <= tol`) or in absolute Daltons. -/
def withinMS1 (isPpm : Bool) (tol fmz refmz : ℚ) : Prop :=
  if isPpm then |fmz - refmz| / refmz * 1000000 ≤ tol else |fmz - refmz| ≤ tol

instance (b : Bool) (tol f r : ℚ) : Decidable (withinMS1 b tol f r) :=
  inferInstanceAs (Decidable (if b then _ ≤ _ else _ ≤ _))

/-- Modelled from the spec: the signed mass accuracy in ppm. -/
def massDiffPpm (fmz refmz : ℚ) : ℚ :=
  (fmz - refmz) / refmz * 1000000

/-- Modelled from the spec: the candidate references of a feature are those
with a theoretical precursor m/z for the feature's adduct within MS1
tolerance of the observed precursor m/z. -/
def ms1Candidates (cfg : SearchConfig) (f : Feature) (refs : List RefEntry) : List RefEntry :=
  refs.filter (fun r =>
    match r.theoMz.lookup f.adduct with
    | none => false
    | some mz => decide (withinMS1 cfg.isPpm cfg.ms1Tol f.precursorMz mz))

/-- The signed ppm mass difference of a feature against a candidate (zero
when the adduct is absent, which cannot happen for MS1 candidates). -/
def candPpm (f : Feature) (r : RefEntry) : ℚ :=
  match r.theoMz.lookup f.adduct with
  | none => 0
  | some mz => massDiffPpm f.precursorMz mz

/-- The MS2 similarity of a feature against a candidate reference. -/
noncomputable def scoreOf (cfg : SearchConfig) (f : Feature) (r : RefEntry) : ℝ :=
  similarity cfg.method cfg.ms2Tol f.ms2 r.spectrum

/-- Modelled from the spec: a scored hit is better when its similarity is
strictly higher, or equal with a strictly smaller absolute ppm error. -/
def betterHit (x y : RefEntry × ℝ × ℚ) : Prop :=
  y.2.1 < x.2.1 ∨ (x.2.1 = y.2.1 ∧ |x.2.2| < |y.2.2|)

noncomputable instance : DecidableRel betterHit :=
  fun _ _ => Classical.propDecidable _

/-- Modelled from the spec: the per-feature database search.  Candidates are
scored with the selected similarity method; the hit with the highest
similarity (ties broken by smallest absolute ppm error, earlier reference
first) is accepted exactly when its similarity reaches the MS2 threshold. -/
noncomputable def searchFeature (cfg : SearchConfig) (refs : List RefEntry) (f : Feature) :
    Option (RefEntry × ℝ × ℚ) :=
  match argBest betterHit
      ((ms1Candidates cfg f refs).map (fun r => (r, scoreOf cfg f r, candPpm f r))) with
  | none => none
  | some hit => if (cfg.threshold : ℝ) ≤ hit.2.1 then some hit else none

/-- Modelled from the spec: the batch search splits the feature table into
the matched set (with the accepted reference, similarity and ppm error) and
the unmatched (dark) set; an unmatched feature is an ordinary output row,
not an error. -/
noncomputable def dbSearch (cfg : SearchConfig) (refs : List RefEntry)
    (features : List Feature) :
    List (Feature × RefEntry × ℝ × ℚ) × List Feature :=
  (features.filterMap (fun f => (searchFeature cfg refs f).map (fun h => (f, h))),
   features.filter (fun f => (searchFeature cfg refs f).isNone))

/-! ## Chain Composition Resolver rows and error handling
(modelled from the spec) -/

/-- Modelled from the spec: the adduct tokens the pipeline recognises. -/
def knownAdducts : List String :=
  ["[M+H]+", "[M+Na]+", "[M+NH4]+", "[M+H-H2O]+", "[M-H]-", "[M+HCOO]-", "[M+CH3COO]-"]

/-- Modelled from the tutorial's class table: class, category and expected
chain count per class (transcribed as documented). -/
def classTable : List (String × String × ℕ) :=
  [("CAR", "Fatty Acyls", 1), ("FA", "Fatty Acyls", 1), ("NAE", "Fatty Acyls", 1),
   ("WE", "Fatty Acyls", 1), ("DG", "Glycerolipids", 2), ("DGDG", "Glycerolipids", 2),
   ("MG", "Glycerolipids", 3), ("MGDG", "Glycerolipids", 2), ("SQDG", "Glycerolipids", 2),
   ("TG", "Glycerolipids", 3), ("BMP", "Glycerophospholipids", 2),
   ("CL", "Glycerophospholipids", 4), ("LPA", "Glycerophospholipids", 1),
   ("LPC", "Glycerophospholipids", 1), ("LPC-O", "Glycerophospholipids", 1),
   ("LPE", "Glycerophospholipids", 1), ("LPE-O", "Glycerophospholipids", 1),
   ("LPG", "Glycerophospholipids", 1), ("LPI", "Glycerophospholipids", 1),
   ("LPS", "Glycerophospholipids", 1), ("PA", "Glycerophospholipids", 2),
   ("PC", "Glycerophospholipids", 2), ("PC-O", "Glycerophospholipids", 2),
   ("PC-P", "Glycerophospholipids", 2), ("PE", "Glycerophospholipids", 2),
   ("PE-O", "Glycerophospholipids", 2), ("PE-P", "Glycerophospholipids", 2),
   ("PG", "Glycerophospholipids", 2), ("PG-O", "Glycerophospholipids", 2),
   ("PG-P", "Glycerophospholipids", 2), ("PI", "Glycerophospholipids", 2),
   ("PMeOH", "Glycerophospholipids", 2), ("PS", "Glycerophospholipids", 2),
   ("DGCC", "Saccharolipids", 2), ("DGGA", "Saccharolipids", 2),
   ("DGTS", "Saccharolipids", 2), ("LDGCC", "Saccharolipids", 1),
   ("LDGTS", "Saccharolipids", 1), ("Cer", "Sphingolipids", 2),
   ("GalCer", "Sphingolipids", 2), ("GlcCer", "Sphingolipids", 2),
   ("HexCer", "Sphingolipids", 2), ("LacCer", "Sphingolipids", 2),
   ("PE_Cer", "Sphingolipids", 3), ("PI_Cer", "Sphingolipids", 3),
   ("SM", "Sphingolipids", 2), ("CE", "Sterol Lipids", 1), ("ST", "Sterol Lipids", 1)]

/-- Modelled from the spec: class backbone masses in micro-Daltons for the
single-chain mass balance (placeholder constants; the claims do not depend
on their values). -/
def classBackbone : List (String × ℤ) :=
  [("FA", 0), ("CAR", 161104790), ("NAE", 43042199), ("WE", 226266445),
   ("LPC", 257102824), ("LPE", 215055874), ("CE", 368344081)]

/-- Modelled from the spec: the inputs of one chain-composition row. -/
structure ChainInput where
  adduct : String
  clsName : String
  neutralMass : ℤ
  tol : ℤ
deriving DecidableEq

/-- Modelled from the spec: the outcome of one chain-composition row — a
validity flag, up to three ranked chain compositions, and a confidence. -/
structure RowResult where
  valid : Bool
  ranks : List (Option (List (ℕ × ℕ)))
  confidence : Option ℚ
deriving DecidableEq

/-- The invalid decision: marked invalid with every downstream field
missing. -/
def invalidRow : RowResult :=
  { valid := false, ranks := [none, none, none], confidence := none }

/-- Modelled from the spec: per-row chain resolution.  An unknown adduct or
class marks the row invalid with every rank missing, and no exception
escapes the row (the `Except` error channel, reserved for spectrum parse
failures upstream, is never used here).  For a single-chain class the
mass-balance solver is used; otherwise the ranking model's top three
assignments are canonicalized. -/
def resolveRow (model : ChainInput → List (List (ℕ × ℕ) × ℚ)) (inp : ChainInput) :
    Except String RowResult :=
  match classTable.lookup inp.clsName with
  | none => .ok invalidRow
  | some cn =>
    if inp.adduct ∉ knownAdducts then .ok invalidRow
    else if cn.2 = 1 then
      match solveSingleChain ((classBackbone.lookup inp.clsName).getD 0)
          inp.neutralMass inp.tol with
      | some p => .ok { valid := true, ranks := [some [p], none, none], confidence := some 1 }
      | none => .ok { valid := true, ranks := [none, none, none], confidence := none }
    else
      .ok { valid := true,
            ranks := (((model inp).take 3).map
                (fun pr : List (ℕ × ℕ) × ℚ => some (canonicalize pr.1)) ++
              [none, none, none]).take 3,
            confidence := (((model inp).take 3).map
                (fun pr : List (ℕ × ℕ) × ℚ => pr.2))[0]? }

/-! ## DOM model for the website scripts

`js/common.js` and `js/docs.js` manipulate the page through `classList`,
`getElementById`, `querySelectorAll` and `localStorage`.  A document is a
list of elements in document order; `getElementById` and `querySelector`
return the first match; `classList.add` appends a class only when absent and
`classList.remove` removes every occurrence.  Tree structure is encoded by a
parent index, used by `closest` and descendant queries.  The `onclick`
attribute of submenu buttons is abstracted to the submenu id it mentions
(`onclickTarget`), standing for the selector match
`button[onclick*=submenu id]`. -/

structure Elem where
  tag : String := "div"
  id : String := ""
  classes : List String := []
  dataPageId : Option String := none
  onclickTarget : Option String := none
  parent : Option ℕ := none
  ariaExpanded : Option String := none
  innerHtml : String := ""
  scrollTop : ℕ := 0
deriving DecidableEq

/-- A document is its elements in document order. -/
abbrev Doc := List Elem

/-- Embeds `classList.add`: appends the class unless already present. -/
def addClass (c : String) (e : Elem) : Elem :=
  if c ∈ e.classes then e else { e with classes := e.classes ++ [c] }

/-- Embeds `classList.remove`: removes every occurrence of the class. -/
def removeClass (c : String) (e : Elem) : Elem :=
  { e with classes := e.classes.filter (fun x => x ≠ c) }

/-- Applies `f` to the element at position `n`, leaving the rest unchanged
(the model of mutating a single DOM node). -/
def updateAt : ℕ → (Elem → Elem) → Doc → Doc
  | _, _, [] => []
  | 0, f, e :: d => f e :: d
  | n + 1, f, e :: d => e :: updateAt n f d

/-- Embeds `document.getElementById`, returning the position of the first
element with the given id. -/
def findIdxById (s : String) (d : Doc) : Option ℕ :=
  d.findIdx? (fun e => decide (e.id = s))

/-- The first element with the given id, if any. -/
def getById (s : String) (d : Doc) : Option Elem :=
  d.find? (fun e => decide (e.id = s))

/-- Embeds `closeAllDropdowns` from `js/common.js`: every element with class
`dropdown-menu` gets class `hidden`. -/
def closeAllDropdowns (d : Doc) : Doc :=
  d.map (fun e => if "dropdown-menu" ∈ e.classes then addClass "hidden" e else e)

/-- Embeds `toggleDropdown` from `js/common.js`: returns unchanged when the
id is absent; otherwise records whether the dropdown was open, closes all
dropdowns, and reopens the target only when it was closed. -/
def toggleDropdown (s : String) (d : Doc) : Doc :=
  match findIdxById s d with
  | none => d
  | some i =>
    match d[i]? with
    | none => d
    | some e =>
      let isOpen := "hidden" ∉ e.classes
      let d1 := closeAllDropdowns d
      if isOpen then d1 else updateAt i (removeClass "hidden") d1

/-- Browser-global state for `js/common.js`: the root element's classes
(`document.documentElement.classList`), the `localStorage` map, and the
document body. -/
structure PageState where
  rootClasses : List String
  storage : List (String × String)
  doc : Doc
deriving DecidableEq

/-- Embeds `localStorage.setItem`. -/
def setItem (k v : String) (st : List (String × String)) : List (String × String) :=
  (k, v) :: st.filter (fun p => p.1 ≠ k)

/-- Embeds `updateDarkModeIcons` from `js/common.js`: when both theme icons
exist, shows the icon for the current mode and hides the other. -/
def updateDarkModeIcons (s : PageState) : PageState :=
  match findIdxById "theme-icon-light" s.doc, findIdxById "theme-icon-dark" s.doc with
  | some i, some j =>
    if "dark" ∈ s.rootClasses then
      { s with doc := updateAt j (removeClass "hidden") (updateAt i (addClass "hidden") s.doc) }
    else
      { s with doc := updateAt j (addClass "hidden") (updateAt i (removeClass "hidden") s.doc) }
  | _, _ => s

/-- Embeds `toggleDarkMode` from `js/common.js`: flips the `dark` class on
the root element, stores the new theme in `localStorage`, then refreshes the
icons. -/
def toggleDarkMode (s : PageState) : PageState :=
  let s1 :=
    if "dark" ∈ s.rootClasses then
      { s with rootClasses := s.rootClasses.filter (fun c => c ≠ "dark"),
               storage := setItem "theme" "light" s.storage }
    else
      { s with rootClasses := s.rootClasses ++ ["dark"],
               storage := setItem "theme" "dark" s.storage }
  updateDarkModeIcons s1

/-! ## Docs page model (`js/docs.js`)

`showPage` hides every `.page-content` element, reveals the target page,
refreshes the sidebar active state (opening the enclosing submenu when
needed), closes the mobile menu on narrow viewports, closes all top-nav
dropdowns and scrolls the content area to the top.  A JavaScript `TypeError`
(calling a method on a `null` query result) aborts the remaining statements;
this is modelled with `Except Doc Doc`, where the `error` payload is the
document state at the moment the exception is thrown. -/

/-- Embeds `Element.closest`: starting from the element at the given index
(inclusive), walks up `parent` links and returns the first index whose
element satisfies the selector; the fuel bounds the walk. -/
def closestAux (d : Doc) (p : Elem → Bool) : ℕ → Option ℕ → Option ℕ
  | 0, _ => none
  | _, none => none
  | fuel + 1, some i =>
    match d[i]? with
    | none => none
    | some e => if p e then some i else closestAux d p fuel e.parent

/-- Walks `parent` links from `j` upward (exclusive of failure) and tells
whether the walk reaches index `i`. -/
def reachesAncestor (d : Doc) : ℕ → Option ℕ → ℕ → Bool
  | 0, _, _ => false
  | _, none, _ => false
  | fuel + 1, some j, i =>
    if j = i then true
    else
      match d[j]? with
      | none => false
      | some e => reachesAncestor d fuel e.parent i

/-- Element at index `k` is a strict descendant of the element at index
`i`. -/
def isDescendant (d : Doc) (k i : ℕ) : Bool :=
  match d[k]? with
  | none => false
  | some e => reachesAncestor d d.length e.parent i

/-- Embeds `element.querySelector` on the element at index `i`: the first
descendant (in document order) satisfying the selector. -/
def querySelectorFrom (d : Doc) (i : ℕ) (p : Elem → Bool) : Option ℕ :=
  (List.range d.length).find? (fun k =>
    (match d[k]? with
     | some e => p e
     | none => false) && isDescendant d k i)

/-- Embeds the first loop of `showPage`: every `.page-content` element gets
class `hidden`. -/
def hideAllPageContent (d : Doc) : Doc :=
  d.map (fun e => if "page-content" ∈ e.classes then addClass "hidden" e else e)

/-- Embeds `showPage` revealing the target: `getElementById(pageId)` and, if
present, remove class `hidden`. -/
def showTargetPage (pageId : String) (d : Doc) : Doc :=
  match findIdxById pageId d with
  | none => d
  | some i => updateAt i (removeClass "hidden") d

/-- Embeds the sidebar reset loop of `showPage`: every `.sidebar-link` loses
class `sidebar-active`. -/
def clearSidebarActive (d : Doc) : Doc :=
  d.map (fun e => if "sidebar-link" ∈ e.classes then removeClass "sidebar-active" e else e)

/-- Embeds the query for the sidebar link with the matching `data-page-id`
attribute. -/
def findSidebarLink (pageId : String) (d : Doc) : Option ℕ :=
  d.findIdx? (fun e => decide ("sidebar-link" ∈ e.classes) && decide (e.dataPageId = some pageId))

/-- Embeds the query for the button whose `onclick` attribute mentions the
given submenu id. -/
def findParentButton (submenuId : String) (d : Doc) : Option ℕ :=
  d.findIdx? (fun e => decide (e.tag = "button") && decide (e.onclickTarget = some submenuId))

/-- Character-list prefix test, the meaning of the CSS attribute selector
`id^=`. -/
def listPre : List Char → List Char → Bool
  | [], _ => true
  | _, [] => false
  | a :: as, b :: bs => a == b && listPre as bs

/-- String prefix test used by the `div[id^=submenu-]` selector. -/
def strStartsWith (pre s : String) : Bool :=
  listPre pre.data s.data

/-- The selector for an enclosing submenu container, a `div` whose id starts
with `submenu-`. -/
def isSubmenuDiv (e : Elem) : Bool :=
  decide (e.tag = "div") && strStartsWith "submenu-" e.id

/-- Embeds the sidebar activation block of `showPage` (lines 16-37 of
`js/docs.js`): activate the matching sidebar link and, when it sits inside a
hidden submenu whose controlling button exists, open the submenu and rotate
its chevron.  When the button has no `.submenu-chevron` descendant the
original code throws a `TypeError` after the submenu is already open; this
is the `error` outcome. -/
def activateSidebarLink (pageId : String) (d : Doc) : Except Doc Doc :=
  match findSidebarLink pageId d with
  | none => .ok d
  | some li =>
    let d1 := updateAt li (addClass "sidebar-active") d
    match closestAux d1 isSubmenuDiv d1.length (some li) with
    | none => .ok d1
    | some si =>
      match d1[si]? with
      | none => .ok d1
      | some se =>
        if "hidden" ∈ se.classes then
          match findParentButton se.id d1 with
          | none => .ok d1
          | some bi =>
            let d2 := updateAt si (removeClass "hidden") d1
            let d3 := updateAt bi (addClass "sidebar-active") d2
            match querySelectorFrom d3 bi (fun e => decide ("submenu-chevron" ∈ e.classes)) with
            | none => .error d3
            | some ci =>
              .ok (updateAt bi (fun e => { e with ariaExpanded := some "true" })
                (updateAt ci (addClass "rotate-180") d3))
        else .ok d1

/-- Embeds `toggleMobileMenu` from `js/common.js`; the icon markup assigned
to `innerHTML` is abbreviated to marker strings. -/
def toggleMobileMenu (force : Option Bool) (d : Doc) : Doc :=
  match findIdxById "sidebar" d with
  | none => d
  | some si =>
    match d[si]? with
    | none => d
    | some se =>
      let shouldOpen :=
        match force with
        | some b => b
        | none => "-translate-x-full" ∈ se.classes
      let d1 :=
        if shouldOpen then
          updateAt si (fun e => addClass "translate-x-0" (removeClass "-translate-x-full" e)) d
        else
          updateAt si (fun e => removeClass "translate-x-0" (addClass "-translate-x-full" e)) d
      let d2 :=
        match findIdxById "overlay" d1 with
        | none => d1
        | some oi =>
          if shouldOpen then updateAt oi (removeClass "hidden") d1
          else updateAt oi (addClass "hidden") d1
      match findIdxById "mobile-menu-btn" d2 with
      | none => d2
      | some bi =>
        if shouldOpen then updateAt bi (fun e => { e with innerHtml := "icon-close" }) d2
        else updateAt bi (fun e => { e with innerHtml := "icon-bars" }) d2

/-- Embeds the scroll reset of `showPage`:
`document.getElementById("content-area").scrollTop = 0` throws when the
element is missing. -/
def scrollContentTop (d : Doc) : Except Doc Doc :=
  match findIdxById "content-area" d with
  | none => .error d
  | some i => .ok (updateAt i (fun e => { e with scrollTop := 0 }) d)

/-- Embeds `showPage(pageId, navId, clickedElement)` from `js/docs.js` for a
viewport of the given width.  The `navId` argument is unused by the original
function body and `clickedElement.preventDefault` is skipped because element
objects have no such method. -/
def showPage (width : ℕ) (pageId : String) (d : Doc) : Except Doc Doc :=
  let d1 := hideAllPageContent d
  let d2 := showTargetPage pageId d1
  let d3 := clearSidebarActive d2
  match activateSidebarLink pageId d3 with
  | .error s => .error s
  | .ok d4 =>
    let d5 := if width < 768 then toggleMobileMenu (some false) d4 else d4
    let d6 := closeAllDropdowns d5
    scrollContentTop d6

/-- The document state after a call that either returned normally or threw:
for a thrown call this is the state at the moment of the exception. -/
def finalDoc : Except Doc Doc → Doc
  | .ok d => d
  | .error d => d

/-! ## Invariants for the docs page model -/

/-- Every `.page-content` element other than the target page is hidden. -/
def OnlyTargetVisible (pageId : String) (d : Doc) : Prop :=
  ∀ (i : ℕ) (e : Elem), d[i]? = some e → "page-content" ∈ e.classes → e.id ≠ pageId →
    "hidden" ∈ e.classes

/-- The first element with the target id, when it exists, is not hidden. -/
def TargetShown (pageId : String) (d : Doc) : Prop :=
  ∀ (i : ℕ) (e : Elem), findIdxById pageId d = some i → d[i]? = some e → "hidden" ∉ e.classes

/-- No `.page-content` element doubles as a submenu container. -/
def NoSubmenuPage (d : Doc) : Prop :=
  ∀ (i : ℕ) (e : Elem), d[i]? = some e → "page-content" ∈ e.classes →
    strStartsWith "submenu-" e.id = false

/-- No element carrying the target id doubles as a dropdown menu. -/
def NoDropdownTarget (pageId : String) (d : Doc) : Prop :=
  ∀ (i : ℕ) (e : Elem), d[i]? = some e → e.id = pageId → "dropdown-menu" ∉ e.classes

/-- Element transformations that keep ids, never introduce the
`page-content` or `dropdown-menu` classes, and keep the `hidden` class of
already-hidden elements.  Every class manipulation performed by `showPage`
is of this shape. -/
def SafeDown (f : Elem → Elem) : Prop :=
  ∀ e, (f e).id = e.id ∧
    ("page-content" ∈ (f e).classes → "page-content" ∈ e.classes) ∧
    ("dropdown-menu" ∈ (f e).classes → "dropdown-menu" ∈ e.classes) ∧
    ("hidden" ∈ e.classes → "hidden" ∈ (f e).classes)

/-- Element transformations that keep ids and never hide a visible
element. -/
def SafeVis (f : Elem → Elem) : Prop :=
  ∀ e, (f e).id = e.id ∧ ("hidden" ∉ e.classes → "hidden" ∉ (f e).classes)

/-- The id sequence of a document, which none of the steps change. -/
def idsOf (d : Doc) : List String :=
  d.map Elem.id

/-- The invariant bundle maintained by every statement of `showPage` after
the target page has been revealed: only the target page is visible, the
target is shown, and the two structural side conditions on the document. -/
def ShowInv (pageId : String) (d : Doc) : Prop :=
  OnlyTargetVisible pageId d ∧ TargetShown pageId d ∧ NoSubmenuPage d ∧
    NoDropdownTarget pageId d

/-! ## Properties of `argBest` -/

theorem argBest_mem {better : α → α → Prop} [DecidableRel better] {l : List α} {x : α}
    (h : argBest better l = some x) : x ∈ l := by
  induction l with
  | nil => simp [argBest] at h
  | cons a xs ih =>
    rw [argBest] at h
    cases h2 : argBest better xs with
    | none =>
      rw [h2] at h
      dsimp only at h
      injection h with h
      exact h ▸ List.mem_cons_self a xs
    | some y =>
      rw [h2] at h
      dsimp only at h
      by_cases hb : better y a
      · rw [if_pos hb] at h
        injection h with h
        subst h
        exact List.mem_cons_of_mem a (ih h2)
      · rw [if_neg hb] at h
        injection h with h
        exact h ▸ List.mem_cons_self a xs

theorem argBest_eq_none {better : α → α → Prop} [DecidableRel better] {l : List α} :
    argBest better l = none ↔ l = [] := by
  cases l with
  | nil => simp [argBest]
  | cons a xs =>
    rw [argBest]
    cases h : argBest better xs with
    | none => simp
    | some y =>
      dsimp only
      by_cases hb : better y a
      · rw [if_pos hb]; simp
      · rw [if_neg hb]; simp

theorem argBest_not_better {better : α → α → Prop} [DecidableRel better]
    (hasymm : ∀ a b, better a b → ¬ better b a)
    (hneg : ∀ a b c, ¬ better a b → ¬ better b c → ¬ better a c) :
    ∀ {l : List α} {x : α}, argBest better l = some x → ∀ z ∈ l, ¬ better z x := by
  intro l
  have hirrefl : ∀ a, ¬ better a a := fun a hb => hasymm a a hb hb
  induction l with
  | nil => intro x h; simp [argBest] at h
  | cons a xs ih =>
    intro x h z hz
    rw [argBest] at h
    cases h2 : argBest better xs with
    | none =>
      rw [h2] at h
      dsimp only at h
      injection h with h
      subst h
      rcases List.mem_cons.mp hz with rfl | hz2
      · exact hirrefl _
      · rw [argBest_eq_none.mp h2] at hz2
        exact absurd hz2 (List.not_mem_nil z)
    | some y =>
      rw [h2] at h
      dsimp only at h
      by_cases hb : better y a
      · rw [if_pos hb] at h
        injection h with h
        subst h
        rcases List.mem_cons.mp hz with rfl | hz2
        · exact hasymm _ _ hb
        · exact ih h2 z hz2
      · rw [if_neg hb] at h
        injection h with h
        subst h
        rcases List.mem_cons.mp hz with rfl | hz2
        · exact hirrefl _
        · exact hneg z y _ (ih h2 z hz2) hb

theorem argBest_of_decomp {better : α → α → Prop} [DecidableRel better] {x : α} :
    ∀ {l1 l2 : List α}, (∀ z ∈ l1, better x z) → (∀ z ∈ l2, ¬ better z x) →
      argBest better (l1 ++ x :: l2) = some x := by
  intro l1
  induction l1 with
  | nil =>
    intro l2 _ h2
    rw [List.nil_append, argBest]
    cases h3 : argBest better l2 with
    | none => rfl
    | some y => dsimp only; rw [if_neg (h2 y (argBest_mem h3))]
  | cons a l1 ih =>
    intro l2 h1 h2
    rw [List.cons_append, argBest, ih (fun z hz => h1 z (List.mem_cons_of_mem a hz)) h2]
    dsimp only
    rw [if_pos (h1 a (List.mem_cons_self a l1))]

/-! ## C5: the single-chain mass-balance solver -/

/-- C5: for single-chain lipids the resolver invokes no statistical model;
`solveSingleChain` is a pure function of the mass constants, backbone mass,
neutral mass and tolerance (hence deterministic across runs), its output is
a small-integer pair whose residual mass error is within the configured
tolerance (the mass-balance invariant) and minimal over the whole search
space, and it returns nothing exactly when no pair in the search space meets
the tolerance. -/
theorem c5_single_chain_solver (backbone neutralMass tol : ℤ) :
    (∀ p, solveSingleChain backbone neutralMass tol = some p →
      p ∈ chainSearchSpace ∧ residual backbone neutralMass p ≤ tol ∧
        ∀ q ∈ chainSearchSpace, residual backbone neutralMass q ≤ tol →
          residual backbone neutralMass p ≤ residual backbone neutralMass q) ∧
    (solveSingleChain backbone neutralMass tol = none ↔
      ∀ p ∈ chainSearchSpace, ¬ residual backbone neutralMass p ≤ tol) := by
  have hasymm : ∀ a b, residual backbone neutralMass a < residual backbone neutralMass b →
      ¬ residual backbone neutralMass b < residual backbone neutralMass a :=
    fun a b h => not_lt.mpr (le_of_lt h)
  have hneg : ∀ a b c : ℕ × ℕ, ¬ residual backbone neutralMass a < residual backbone neutralMass b →
      ¬ residual backbone neutralMass b < residual backbone neutralMass c →
      ¬ residual backbone neutralMass a < residual backbone neutralMass c :=
    fun a b c h1 h2 => not_lt.mpr ((not_lt.mp h2).trans (not_lt.mp h1))
  constructor
  · intro p hp
    have hmem := argBest_mem hp
    have hfil := List.mem_filter.mp hmem
    refine ⟨hfil.1, by simpa using hfil.2, ?_⟩
    intro q hq hqt
    have hnb := argBest_not_better hasymm hneg hp q
      (List.mem_filter.mpr ⟨hq, by simpa using hqt⟩)
    exact not_lt.mp hnb
  · rw [solveSingleChain, argBest_eq_none, List.filter_eq_nil_iff]
    simp

/-- Witness for C5 at a concrete input: a neutral mass that is exactly the
backbone plus the mass of a 16:0 chain is solved within a 0.001 Da
(1000 micro-Dalton) tolerance. -/
theorem c5_single_chain_solver_witness :
    ((16, 0) : ℕ × ℕ) ∈ chainSearchSpace ∧
      residual 0 (chainMass 16 0) (16, 0) ≤ 1000 :=
  have h := (c5_single_chain_solver 0 (chainMass 16 0) 1000).1 (16, 0) (by decide)
  ⟨h.1, h.2.1⟩

/-! ## C3: confidence aggregation -/

/-- C3: `pred_confidence` is the arithmetic mean of exactly the present
components, excluding missing ones rather than treating them as zero, and is
missing when no component is present; on (0.90, 0.95, 0.97) it is 0.94 and
on (0.90, missing, 0.97) it is 0.935. -/
theorem c3_pred_confidence_mean :
    (∀ x y z : ℚ, predConfidence (some x) (some y) (some z) = some ((x + y + z) / 3)) ∧
    (∀ x z : ℚ, predConfidence (some x) none (some z) = some ((x + z) / 2)) ∧
    (∀ x y : ℚ, predConfidence (some x) (some y) none = some ((x + y) / 2)) ∧
    (∀ y z : ℚ, predConfidence none (some y) (some z) = some ((y + z) / 2)) ∧
    (∀ x : ℚ, predConfidence (some x) none none = some x) ∧
    (∀ y : ℚ, predConfidence none (some y) none = some y) ∧
    (∀ z : ℚ, predConfidence none none (some z) = some z) ∧
    predConfidence none none none = none ∧
    predConfidence (some (90 / 100)) (some (95 / 100)) (some (97 / 100)) = some (94 / 100) ∧
    predConfidence (some (90 / 100)) none (some (97 / 100)) = some (935 / 1000) := by
  refine ⟨fun x y z => ?_, fun x z => ?_, fun x y => ?_, fun y z => ?_, fun x => ?_,
    fun y => ?_, fun z => ?_, ?_, ?_, ?_⟩ <;>
    simp only [predConfidence, List.filterMap, Option.some.injEq, id] <;> (norm_num; try ring)

/-! ## C4: canonicalization is idempotent, the order is total -/

/-- C4: canonicalizing an already-canonical chain composition is a no-op;
canonicalization always produces a canonical reordering of its input (so it
is idempotent), and the canonical order (descending carbon count, ties
broken by descending double-bond count) is total, antisymmetric and
transitive — a total, reproducible order. -/
theorem c4_canonicalization :
    (∀ l : List (ℕ × ℕ), IsCanonical l → canonicalize l = l) ∧
    (∀ l : List (ℕ × ℕ), IsCanonical (canonicalize l) ∧ (canonicalize l).Perm l ∧
      canonicalize (canonicalize l) = canonicalize l) ∧
    (∀ a b : ℕ × ℕ, chainBefore a b ∨ chainBefore b a) ∧
    (∀ a b : ℕ × ℕ, chainBefore a b → chainBefore b a → a = b) ∧
    (∀ a b c : ℕ × ℕ, chainBefore a b → chainBefore b c → chainBefore a c) :=
  ⟨fun _ h => h.insertionSort_eq,
   fun l => ⟨List.sorted_insertionSort chainBefore l, List.perm_insertionSort chainBefore l,
     (List.sorted_insertionSort chainBefore l).insertionSort_eq⟩,
   fun a b => IsTotal.total a b,
   fun a b hab hba => IsAntisymm.antisymm a b hab hba,
   fun a b c hab hbc => IsTrans.trans a b c hab hbc⟩

/-- Witness for C4 at a concrete input: the list [(18,1), (16,0)] is already
canonical and canonicalization leaves it unchanged. -/
theorem c4_canonicalization_witness :
    IsCanonical [((18 : ℕ), (1 : ℕ)), (16, 0)] ∧
      canonicalize [((18 : ℕ), (1 : ℕ)), (16, 0)] = [(18, 1), (16, 0)] :=
  ⟨by decide, c4_canonicalization.1 [(18, 1), (16, 0)] (by decide)⟩

/-! ## C6: canonical name formatting -/

/-- C6 counterexample: under the canonical order of the spec (descending
carbon count), class PC with top chain assignment (16,0)/(18,1) is formatted
as "PC 18:1_16:0", not "PC 16:0_18:1" as the claim (and the tutorial
example) states. -/
theorem c6_name_format_counterexample :
    lipidName "PC" [(16, 0), (18, 1)] = "PC 18:1_16:0" ∧
      lipidName "PC" [(16, 0), (18, 1)] ≠ "PC 16:0_18:1" := by
  decide

/-- C6 (amended): the name is the class label followed by the canonically
ordered chains formatted as carbon:double-bond pairs joined by underscores;
(0,0) chains are omitted from the string but still counted by `num_chain`;
class PC with top assignment (16,0)/(18,1) yields "PC 18:1_16:0" (descending
canonical order), not "PC 16:0_18:1". -/
theorem c6_name_format :
    lipidName "PC" [(16, 0), (18, 1)] = "PC 18:1_16:0" ∧
    (∀ (cls : String) (l : List (ℕ × ℕ)),
      lipidName cls (l ++ [(0, 0)]) = lipidName cls l) ∧
    (∀ l : List (ℕ × ℕ), numChain (l ++ [(0, 0)]) = numChain l + 1) := by
  refine ⟨by decide, ?_, ?_⟩
  · intro cls l
    unfold lipidName
    have hkey : ((canonicalize (l ++ [(0, 0)])).filter (fun p => p ≠ (0, 0))) =
        ((canonicalize l).filter (fun p => p ≠ (0, 0))) := by
      apply @List.eq_of_perm_of_sorted _ chainBefore _ _ _
      · refine ((List.perm_insertionSort chainBefore (l ++ [(0, 0)])).filter _).trans ?_
        refine List.Perm.trans ?_ (((List.perm_insertionSort chainBefore l).filter _).symm)
        simp
      · exact (List.sorted_insertionSort chainBefore (l ++ [(0, 0)])).filter _
      · exact (List.sorted_insertionSort chainBefore l).filter _
    rw [hkey]
  · intro l
    simp [numChain]

/-! ## C10: dark-mode toggle -/

theorem updateDarkModeIcons_rootClasses (s : PageState) :
    (updateDarkModeIcons s).rootClasses = s.rootClasses := by
  unfold updateDarkModeIcons
  split
  · split <;> rfl
  · rfl

theorem updateDarkModeIcons_storage (s : PageState) :
    (updateDarkModeIcons s).storage = s.storage := by
  unfold updateDarkModeIcons
  split
  · split <;> rfl
  · rfl

theorem toggleDarkMode_of_mem {s : PageState} (h : "dark" ∈ s.rootClasses) :
    (toggleDarkMode s).rootClasses = s.rootClasses.filter (fun c => c ≠ "dark") ∧
      (toggleDarkMode s).storage = setItem "theme" "light" s.storage := by
  unfold toggleDarkMode
  rw [if_pos h]
  exact ⟨updateDarkModeIcons_rootClasses _, updateDarkModeIcons_storage _⟩

theorem toggleDarkMode_of_not_mem {s : PageState} (h : "dark" ∉ s.rootClasses) :
    (toggleDarkMode s).rootClasses = s.rootClasses ++ ["dark"] ∧
      (toggleDarkMode s).storage = setItem "theme" "dark" s.storage := by
  unfold toggleDarkMode
  rw [if_neg h]
  exact ⟨updateDarkModeIcons_rootClasses _, updateDarkModeIcons_storage _⟩

/-- C10: after `toggleDarkMode`, the localStorage entry "theme" is "dark"
exactly when the root element has the `dark` class and "light" otherwise,
and two consecutive calls restore the root element's `dark`-class
membership. -/
theorem c10_toggle_dark_mode (s : PageState) :
    ((toggleDarkMode s).storage.lookup "theme" = some "dark" ↔
      "dark" ∈ (toggleDarkMode s).rootClasses) ∧
    ((toggleDarkMode s).storage.lookup "theme" = some "light" ↔
      "dark" ∉ (toggleDarkMode s).rootClasses) ∧
    ("dark" ∈ (toggleDarkMode (toggleDarkMode s)).rootClasses ↔ "dark" ∈ s.rootClasses) := by
  by_cases h : "dark" ∈ s.rootClasses
  · obtain ⟨hr, hs⟩ := toggleDarkMode_of_mem h
    have hnot : "dark" ∉ (toggleDarkMode s).rootClasses := by
      rw [hr]; simp
    obtain ⟨hr2, _⟩ := toggleDarkMode_of_not_mem hnot
    refine ⟨?_, ?_, ?_⟩
    · rw [hs]; simp [setItem, List.lookup, hnot]
    · rw [hs]; simp [setItem, List.lookup, hnot]
    · rw [hr2]; simp [h]
  · obtain ⟨hr, hs⟩ := toggleDarkMode_of_not_mem h
    have hmem : "dark" ∈ (toggleDarkMode s).rootClasses := by
      rw [hr]; simp
    obtain ⟨hr2, _⟩ := toggleDarkMode_of_mem hmem
    refine ⟨?_, ?_, ?_⟩
    · rw [hs]; simp [setItem, List.lookup, hmem]
    · rw [hs]; simp [setItem, List.lookup, hmem]
    · rw [hr2, hr]
      constructor
      · intro hx
        rcases List.mem_filter.mp hx with ⟨hx1, hx2⟩
        rcases List.mem_append.mp hx1 with hx3 | hx3
        · exact hx3
        · simp at hx2
      · intro hx
        exact absurd hx h

/-! ## DOM helper lemmas -/

theorem updateAt_getElem (i : ℕ) (f : Elem → Elem) (d : Doc) (j : ℕ) :
    (updateAt i f d)[j]? = if j = i then (d[j]?).map f else d[j]? := by
  induction d generalizing i j with
  | nil => cases i <;> simp [updateAt]
  | cons e d ih =>
    cases i with
    | zero =>
      cases j with
      | zero => simp [updateAt]
      | succ j => simp [updateAt]
    | succ i =>
      cases j with
      | zero => simp [updateAt]
      | succ j => simpa [updateAt] using ih i j

theorem mem_addClass_iff (c x : String) (e : Elem) :
    x ∈ (addClass c e).classes ↔ x ∈ e.classes ∨ x = c := by
  unfold addClass
  by_cases h : c ∈ e.classes
  · rw [if_pos h]
    constructor
    · exact fun hx => Or.inl hx
    · rintro (hx | rfl)
      · exact hx
      · exact h
  · rw [if_neg h]
    simp

theorem mem_removeClass_iff (c x : String) (e : Elem) :
    x ∈ (removeClass c e).classes ↔ x ∈ e.classes ∧ x ≠ c := by
  unfold removeClass
  simp [List.mem_filter]

theorem addClass_id (c : String) (e : Elem) : (addClass c e).id = e.id := by
  unfold addClass
  split <;> rfl

theorem closeAllDropdowns_getElem (d : Doc) (j : ℕ) :
    (closeAllDropdowns d)[j]? =
      (d[j]?).map (fun e => if "dropdown-menu" ∈ e.classes then addClass "hidden" e else e) :=
  List.getElem?_map _ d j

theorem closeAllDropdowns_hidden {d : Doc} {j : ℕ} {f : Elem}
    (h : (closeAllDropdowns d)[j]? = some f)
    (hm : "dropdown-menu" ∈ f.classes) : "hidden" ∈ f.classes := by
  rw [closeAllDropdowns_getElem] at h
  obtain ⟨x, _, rfl⟩ := Option.map_eq_some'.mp h
  by_cases hx : "dropdown-menu" ∈ x.classes
  · rw [if_pos hx]
    exact (mem_addClass_iff _ _ _).mpr (Or.inr rfl)
  · rw [if_neg hx] at hm ⊢
    exact absurd hm hx

/-! ## C9: dropdown toggling -/

/-- C9 counterexample: `toggleDropdown` on an element that exists but is
visible and has no `dropdown-menu` class leaves it visible, so the claimed
equivalence (visible after the call exactly when hidden before it) fails:
here the element is visible after the call and was not hidden before it. -/
theorem c9_toggle_dropdown_counterexample :
    toggleDropdown "x" [({ id := "x" } : Elem)] = [({ id := "x" } : Elem)] ∧
      ¬ (("hidden" ∉ (({ id := "x" } : Elem)).classes) ↔
         ("hidden" ∈ (({ id := "x" } : Elem)).classes)) := by
  decide

/-- C9 (amended): if no element with the id exists, `toggleDropdown` leaves
the document unchanged.  Otherwise, afterwards every `dropdown-menu` element
other than the target is hidden, and the target becomes visible when it was
hidden before; when it was visible before and actually carries the
`dropdown-menu` class, it becomes hidden (an element without that class is
not re-hidden, which is the only correction to the claim). -/
theorem c9_toggle_dropdown (s : String) (d : Doc) :
    (findIdxById s d = none → toggleDropdown s d = d) ∧
    (∀ i e, findIdxById s d = some i → d[i]? = some e →
      (∀ j f, j ≠ i → (toggleDropdown s d)[j]? = some f →
        "dropdown-menu" ∈ f.classes → "hidden" ∈ f.classes) ∧
      (∀ f, (toggleDropdown s d)[i]? = some f →
        ("hidden" ∈ e.classes → "hidden" ∉ f.classes) ∧
        ("hidden" ∉ e.classes → "dropdown-menu" ∈ e.classes → "hidden" ∈ f.classes))) := by
  constructor
  · intro h
    unfold toggleDropdown
    rw [h]
  · intro i e hi he
    unfold toggleDropdown
    rw [hi]
    dsimp only
    rw [he]
    dsimp only
    by_cases hOpen : "hidden" ∈ e.classes
    · rw [if_neg (fun hno => hno hOpen)]
      constructor
      · intro j f hj hf
        rw [updateAt_getElem, if_neg hj] at hf
        exact closeAllDropdowns_hidden hf
      · intro f hf
        rw [updateAt_getElem, if_pos rfl, closeAllDropdowns_getElem, he] at hf
        simp only [Option.map_some', Option.some.injEq] at hf
        subst hf
        constructor
        · intro _
          intro hmem
          rcases (mem_removeClass_iff _ _ _).mp hmem with ⟨_, hne⟩
          exact hne rfl
        · intro hno
          exact absurd hOpen hno
    · rw [if_pos hOpen]
      constructor
      · intro j f _ hf
        exact closeAllDropdowns_hidden hf
      · intro f hf
        rw [closeAllDropdowns_getElem, he] at hf
        simp only [Option.map_some', Option.some.injEq] at hf
        subst hf
        constructor
        · intro hmem
          exact absurd hmem hOpen
        · intro _ hdm
          rw [if_pos hdm]
          exact (mem_addClass_iff _ _ _).mpr (Or.inr rfl)

/-- Witness for C9 at a concrete input: a hidden dropdown menu "m1" becomes
visible after `toggleDropdown "m1"`. -/
theorem c9_toggle_dropdown_witness :
    "hidden" ∉ (removeClass "hidden"
      ({ id := "m1", classes := ["dropdown-menu", "hidden"] } : Elem)).classes :=
  have h := (c9_toggle_dropdown "m1"
      [({ id := "m1", classes := ["dropdown-menu", "hidden"] } : Elem),
       ({ id := "m2", classes := ["dropdown-menu"] } : Elem)]).2 0
      ({ id := "m1", classes := ["dropdown-menu", "hidden"] } : Elem)
      (by decide) (by decide)
  (h.2 _ (by decide)).1 (by decide)

/-! ## C8 machinery: pointwise safety of the element transformations -/

theorem removeClass_subset {c x : String} {e : Elem} (h : x ∈ (removeClass c e).classes) :
    x ∈ e.classes :=
  ((mem_removeClass_iff c x e).mp h).1

theorem mem_removeClass_of_ne {c x : String} {e : Elem} (hx : x ∈ e.classes) (hne : x ≠ c) :
    x ∈ (removeClass c e).classes :=
  (mem_removeClass_iff c x e).mpr ⟨hx, hne⟩

theorem not_mem_removeClass_self (c : String) (e : Elem) :
    c ∉ (removeClass c e).classes := by
  intro h
  exact ((mem_removeClass_iff c c e).mp h).2 rfl

theorem mem_addClass_of_ne {c x : String} {e : Elem} (h : x ∈ (addClass c e).classes)
    (hne : x ≠ c) : x ∈ e.classes := by
  rcases (mem_addClass_iff c x e).mp h with h2 | h2
  · exact h2
  · exact absurd h2 hne

theorem removeClass_id_eq (c : String) (e : Elem) : (removeClass c e).id = e.id := rfl

/-! ## C8 machinery: id stability and `findIdxById` transport -/

theorem idsOf_updateAt (f : Elem → Elem) (hf : ∀ e, (f e).id = e.id) (i : ℕ) (d : Doc) :
    idsOf (updateAt i f d) = idsOf d := by
  apply List.ext_getElem?
  intro n
  simp only [idsOf, List.getElem?_map, updateAt_getElem]
  by_cases hn : n = i
  · rw [if_pos hn]
    cases d[n]? with
    | none => rfl
    | some x => simp [hf]
  · rw [if_neg hn]

theorem idsOf_map (f : Elem → Elem) (hf : ∀ e, (f e).id = e.id) (d : Doc) :
    idsOf (d.map f) = idsOf d := by
  simp only [idsOf, List.map_map]
  exact List.map_congr_left (fun e _ => hf e)

theorem findIdxById_eq_idsOf (s : String) (d : Doc) :
    findIdxById s d = (idsOf d).findIdx? (fun x => decide (x = s)) := by
  rw [idsOf, List.findIdx?_map]
  rfl

theorem findIdxById_congr {d1 d2 : Doc} (h : idsOf d1 = idsOf d2) (s : String) :
    findIdxById s d1 = findIdxById s d2 := by
  rw [findIdxById_eq_idsOf, findIdxById_eq_idsOf, h]

theorem findIdxById_spec {s : String} {d : Doc} {i : ℕ} (h : findIdxById s d = some i) :
    ∃ e, d[i]? = some e ∧ e.id = s := by
  obtain ⟨h1, h2⟩ := List.findIdx?_eq_some_iff_findIdx_eq.mp h
  refine ⟨d[i], by simp [List.getElem?_eq_getElem h1], ?_⟩
  subst h2
  have := @List.findIdx_getElem _ (fun e => decide (e.id = s)) d h1
  simpa using this

/-! ## C8 machinery: invariant preservation under single-element updates -/

theorem otv_updateAt_keep {pid : String} {f : Elem → Elem} {i : ℕ} {d : Doc}
    (hid : ∀ e, (f e).id = e.id)
    (hpc : ∀ e, "page-content" ∈ (f e).classes → "page-content" ∈ e.classes)
    (hkeep : ∀ e, "hidden" ∈ e.classes → "hidden" ∈ (f e).classes)
    (h : OnlyTargetVisible pid d) : OnlyTargetVisible pid (updateAt i f d) := by
  intro j e hj hpcmem hne
  rw [updateAt_getElem] at hj
  by_cases hji : j = i
  · rw [if_pos hji] at hj
    obtain ⟨x, hx, rfl⟩ := Option.map_eq_some'.mp hj
    exact hkeep x (h j x hx (hpc x hpcmem) (by rw [hid x] at hne; exact hne))
  · rw [if_neg hji] at hj
    exact h j e hj hpcmem hne

theorem otv_updateAt_nopc {pid : String} {f : Elem → Elem} {i : ℕ} {d : Doc}
    (hn : ∀ e, d[i]? = some e → "page-content" ∉ (f e).classes)
    (h : OnlyTargetVisible pid d) : OnlyTargetVisible pid (updateAt i f d) := by
  intro j e hj hpcmem hne
  rw [updateAt_getElem] at hj
  by_cases hji : j = i
  · rw [if_pos hji] at hj
    obtain ⟨x, hx, rfl⟩ := Option.map_eq_some'.mp hj
    exact absurd hpcmem (hn x (hji ▸ hx))
  · rw [if_neg hji] at hj
    exact h j e hj hpcmem hne

theorem otv_updateAt_target {pid : String} {f : Elem → Elem} {i : ℕ} {d : Doc}
    (hpid : ∀ e, d[i]? = some e → (f e).id = pid)
    (h : OnlyTargetVisible pid d) : OnlyTargetVisible pid (updateAt i f d) := by
  intro j e hj hpcmem hne
  rw [updateAt_getElem] at hj
  by_cases hji : j = i
  · rw [if_pos hji] at hj
    obtain ⟨x, hx, rfl⟩ := Option.map_eq_some'.mp hj
    exact absurd (hpid x (hji ▸ hx)) hne
  · rw [if_neg hji] at hj
    exact h j e hj hpcmem hne

theorem otv_map_keep {pid : String} {f : Elem → Elem} {d : Doc}
    (hid : ∀ e, (f e).id = e.id)
    (hpc : ∀ e, "page-content" ∈ (f e).classes → "page-content" ∈ e.classes)
    (hkeep : ∀ e, "hidden" ∈ e.classes → "hidden" ∈ (f e).classes)
    (h : OnlyTargetVisible pid d) : OnlyTargetVisible pid (d.map f) := by
  intro j e hj hpcmem hne
  rw [List.getElem?_map] at hj
  obtain ⟨x, hx, rfl⟩ := Option.map_eq_some'.mp hj
  exact hkeep x (h j x hx (hpc x hpcmem) (by rw [hid x] at hne; exact hne))

theorem nsp_updateAt {f : Elem → Elem} {i : ℕ} {d : Doc}
    (hid : ∀ e, (f e).id = e.id)
    (hpc : ∀ e, "page-content" ∈ (f e).classes → "page-content" ∈ e.classes)
    (h : NoSubmenuPage d) : NoSubmenuPage (updateAt i f d) := by
  intro j e hj hpcmem
  rw [updateAt_getElem] at hj
  by_cases hji : j = i
  · rw [if_pos hji] at hj
    obtain ⟨x, hx, rfl⟩ := Option.map_eq_some'.mp hj
    rw [hid x]
    exact h j x hx (hpc x hpcmem)
  · rw [if_neg hji] at hj
    exact h j e hj hpcmem

theorem nsp_map {f : Elem → Elem} {d : Doc}
    (hid : ∀ e, (f e).id = e.id)
    (hpc : ∀ e, "page-content" ∈ (f e).classes → "page-content" ∈ e.classes)
    (h : NoSubmenuPage d) : NoSubmenuPage (d.map f) := by
  intro j e hj hpcmem
  rw [List.getElem?_map] at hj
  obtain ⟨x, hx, rfl⟩ := Option.map_eq_some'.mp hj
  rw [hid x]
  exact h j x hx (hpc x hpcmem)

theorem ndt_updateAt {pid : String} {f : Elem → Elem} {i : ℕ} {d : Doc}
    (hid : ∀ e, (f e).id = e.id)
    (hdd : ∀ e, "dropdown-menu" ∈ (f e).classes → "dropdown-menu" ∈ e.classes)
    (h : NoDropdownTarget pid d) : NoDropdownTarget pid (updateAt i f d) := by
  intro j e hj hide
  rw [updateAt_getElem] at hj
  by_cases hji : j = i
  · rw [if_pos hji] at hj
    obtain ⟨x, hx, rfl⟩ := Option.map_eq_some'.mp hj
    exact fun hmem => h j x hx (by rw [hid x] at hide; exact hide) (hdd x hmem)
  · rw [if_neg hji] at hj
    exact h j e hj hide

theorem ndt_map {pid : String} {f : Elem → Elem} {d : Doc}
    (hid : ∀ e, (f e).id = e.id)
    (hdd : ∀ e, "dropdown-menu" ∈ (f e).classes → "dropdown-menu" ∈ e.classes)
    (h : NoDropdownTarget pid d) : NoDropdownTarget pid (d.map f) := by
  intro j e hj hide
  rw [List.getElem?_map] at hj
  obtain ⟨x, hx, rfl⟩ := Option.map_eq_some'.mp hj
  exact fun hmem => h j x hx (by rw [hid x] at hide; exact hide) (hdd x hmem)

theorem ts_updateAt_vis {pid : String} {f : Elem → Elem} {i : ℕ} {d : Doc}
    (hid : ∀ e, (f e).id = e.id)
    (hvis : ∀ e, "hidden" ∉ e.classes → "hidden" ∉ (f e).classes)
    (h : TargetShown pid d) : TargetShown pid (updateAt i f d) := by
  intro j e hfind hj
  rw [findIdxById_congr (idsOf_updateAt _ hid i d) pid] at hfind
  rw [updateAt_getElem] at hj
  by_cases hji : j = i
  · rw [if_pos hji] at hj
    obtain ⟨x, hx, rfl⟩ := Option.map_eq_some'.mp hj
    exact hvis x (h j x hfind hx)
  · rw [if_neg hji] at hj
    exact h j e hfind hj

theorem ts_map_vis {pid : String} {f : Elem → Elem} {d : Doc}
    (hid : ∀ e, (f e).id = e.id)
    (hvis : ∀ e, "hidden" ∉ e.classes → "hidden" ∉ (f e).classes)
    (h : TargetShown pid d) : TargetShown pid (d.map f) := by
  intro j e hfind hj
  rw [findIdxById_congr (idsOf_map _ hid d) pid] at hfind
  rw [List.getElem?_map] at hj
  obtain ⟨x, hx, rfl⟩ := Option.map_eq_some'.mp hj
  exact hvis x (h j x hfind hx)

theorem ts_updateAt_other {pid : String} {f : Elem → Elem} {i : ℕ} {d : Doc}
    (hid : ∀ e, (f e).id = e.id)
    (hne : ∀ e, d[i]? = some e → e.id ≠ pid)
    (h : TargetShown pid d) : TargetShown pid (updateAt i f d) := by
  intro j e hfind hj
  rw [findIdxById_congr (idsOf_updateAt _ hid i d) pid] at hfind
  rw [updateAt_getElem] at hj
  by_cases hji : j = i
  · obtain ⟨x, hx, hxid⟩ := findIdxById_spec hfind
    exact absurd hxid (hne x (hji ▸ hx))
  · rw [if_neg hji] at hj
    exact h j e hfind hj

/-! ## C8 machinery: bundled invariant steps -/

theorem removeClass_vis (c : String) (e : Elem) :
    "hidden" ∉ e.classes → "hidden" ∉ (removeClass c e).classes :=
  fun h hm => h (removeClass_subset hm)

theorem addClass_keep (c x : String) (e : Elem) :
    x ∈ e.classes → x ∈ (addClass c e).classes :=
  fun h => (mem_addClass_iff c x e).mpr (Or.inl h)

theorem updateAt_comp (i : ℕ) (f g : Elem → Elem) (d : Doc) :
    updateAt i (fun e => f (g e)) d = updateAt i f (updateAt i g d) := by
  apply List.ext_getElem?
  intro n
  rw [updateAt_getElem, updateAt_getElem, updateAt_getElem]
  by_cases hn : n = i
  · rw [if_pos hn, if_pos hn, if_pos hn]
    cases d[n]? <;> rfl
  · rw [if_neg hn, if_neg hn, if_neg hn]

theorem showInv_updateAt_addClass {pid c : String} {i : ℕ} {d : Doc}
    (h1 : c ≠ "page-content") (h2 : c ≠ "dropdown-menu") (h3 : c ≠ "hidden")
    (h : ShowInv pid d) : ShowInv pid (updateAt i (addClass c) d) := by
  obtain ⟨ho, ht, hs, hn⟩ := h
  have hid : ∀ e : Elem, (addClass c e).id = e.id := fun e => addClass_id c e
  exact ⟨otv_updateAt_keep hid (fun e he => mem_addClass_of_ne he (Ne.symm h1))
      (fun e => addClass_keep c "hidden" e) ho,
    ts_updateAt_vis hid (fun e hv hm => hv (mem_addClass_of_ne hm (Ne.symm h3))) ht,
    nsp_updateAt hid (fun e he => mem_addClass_of_ne he (Ne.symm h1)) hs,
    ndt_updateAt hid (fun e he => mem_addClass_of_ne he (Ne.symm h2)) hn⟩

theorem showInv_updateAt_removeClass {pid c : String} {i : ℕ} {d : Doc}
    (hc : c ≠ "hidden") (h : ShowInv pid d) :
    ShowInv pid (updateAt i (removeClass c) d) := by
  obtain ⟨ho, ht, hs, hn⟩ := h
  have hid : ∀ e : Elem, (removeClass c e).id = e.id := fun _ => rfl
  exact ⟨otv_updateAt_keep hid (fun e he => removeClass_subset he)
      (fun e he => mem_removeClass_of_ne he (Ne.symm hc)) ho,
    ts_updateAt_vis hid (fun e => removeClass_vis c e) ht,
    nsp_updateAt hid (fun e he => removeClass_subset he) hs,
    ndt_updateAt hid (fun e he => removeClass_subset he) hn⟩

theorem showInv_updateAt_field {pid : String} {i : ℕ} {d : Doc} {f : Elem → Elem}
    (hf : ∀ e, (f e).id = e.id ∧ (f e).classes = e.classes)
    (h : ShowInv pid d) : ShowInv pid (updateAt i f d) := by
  obtain ⟨ho, ht, hs, hn⟩ := h
  have hid : ∀ e : Elem, (f e).id = e.id := fun e => (hf e).1
  have hcl : ∀ (e : Elem) (x : String), x ∈ (f e).classes ↔ x ∈ e.classes :=
    fun e x => by rw [(hf e).2]
  exact ⟨otv_updateAt_keep hid (fun e he => (hcl e _).mp he) (fun e he => (hcl e _).mpr he) ho,
    ts_updateAt_vis hid (fun e hv hm => hv ((hcl e _).mp hm)) ht,
    nsp_updateAt hid (fun e he => (hcl e _).mp he) hs,
    ndt_updateAt hid (fun e he => (hcl e _).mp he) hn⟩

theorem showInv_updateAt_unhide_submenu {pid : String} {i : ℕ} {d : Doc}
    (hse : ∀ e, d[i]? = some e → "page-content" ∉ e.classes)
    (h : ShowInv pid d) : ShowInv pid (updateAt i (removeClass "hidden") d) := by
  obtain ⟨ho, ht, hs, hn⟩ := h
  have hid : ∀ e : Elem, (removeClass "hidden" e).id = e.id := fun _ => rfl
  exact ⟨otv_updateAt_nopc (fun e he hm => hse e he (removeClass_subset hm)) ho,
    ts_updateAt_vis hid (fun e => removeClass_vis _ e) ht,
    nsp_updateAt hid (fun e he => removeClass_subset he) hs,
    ndt_updateAt hid (fun e he => removeClass_subset he) hn⟩

theorem showInv_updateAt_hide_other {pid : String} {i : ℕ} {d : Doc}
    (hne : ∀ e, d[i]? = some e → e.id ≠ pid)
    (h : ShowInv pid d) : ShowInv pid (updateAt i (addClass "hidden") d) := by
  obtain ⟨ho, ht, hs, hn⟩ := h
  have hid : ∀ e : Elem, (addClass "hidden" e).id = e.id := fun e => addClass_id _ e
  exact ⟨otv_updateAt_keep hid (fun e he => mem_addClass_of_ne he (by decide))
      (fun e => addClass_keep _ _ e) ho,
    ts_updateAt_other hid hne ht,
    nsp_updateAt hid (fun e he => mem_addClass_of_ne he (by decide)) hs,
    ndt_updateAt hid (fun e he => mem_addClass_of_ne he (by decide)) hn⟩

/-! ## C8 machinery: the fixed steps of `showPage` -/

theorem otv_hideAll (pid : String) (d : Doc) :
    OnlyTargetVisible pid (hideAllPageContent d) := by
  intro j e hj hpc _
  unfold hideAllPageContent at hj
  rw [List.getElem?_map] at hj
  obtain ⟨x, _, rfl⟩ := Option.map_eq_some'.mp hj
  by_cases hx : "page-content" ∈ x.classes
  · rw [if_pos hx]
    exact (mem_addClass_iff _ _ _).mpr (Or.inr rfl)
  · rw [if_neg hx] at hpc
    exact absurd hpc hx

theorem hideAllFun_id (e : Elem) :
    (if "page-content" ∈ e.classes then addClass "hidden" e else e).id = e.id := by
  by_cases hx : "page-content" ∈ e.classes
  · rw [if_pos hx]; exact addClass_id _ e
  · rw [if_neg hx]

theorem hideAllFun_mem {x : String} (hne : x ≠ "hidden") (e : Elem) :
    x ∈ (if "page-content" ∈ e.classes then addClass "hidden" e else e).classes →
      x ∈ e.classes := by
  by_cases hx : "page-content" ∈ e.classes
  · rw [if_pos hx]; exact fun h => mem_addClass_of_ne h hne
  · rw [if_neg hx]; exact id

theorem nsp_hideAll {d : Doc} (h : NoSubmenuPage d) :
    NoSubmenuPage (hideAllPageContent d) :=
  nsp_map hideAllFun_id (fun e => hideAllFun_mem (by decide) e) h

theorem ndt_hideAll {pid : String} {d : Doc} (h : NoDropdownTarget pid d) :
    NoDropdownTarget pid (hideAllPageContent d) :=
  ndt_map hideAllFun_id (fun e => hideAllFun_mem (by decide) e) h

theorem otv_showTarget {pid : String} {d : Doc} (h : OnlyTargetVisible pid d) :
    OnlyTargetVisible pid (showTargetPage pid d) := by
  unfold showTargetPage
  cases hf : findIdxById pid d with
  | none => exact h
  | some t =>
    refine otv_updateAt_target (fun e he => ?_) h
    obtain ⟨x, hx, hxid⟩ := findIdxById_spec hf
    rw [hx] at he
    injection he with he
    subst he
    exact hxid

theorem ts_showTarget (pid : String) (d : Doc) :
    TargetShown pid (showTargetPage pid d) := by
  unfold showTargetPage
  cases hf : findIdxById pid d with
  | none =>
    intro j e hfind _
    rw [hf] at hfind
    cases hfind
  | some t =>
    intro j e hfind hj
    have hids : idsOf (updateAt t (removeClass "hidden") d) = idsOf d :=
      idsOf_updateAt (removeClass "hidden") (fun _ => rfl) t d
    rw [findIdxById_congr hids, hf] at hfind
    injection hfind with hfind
    subst hfind
    rw [updateAt_getElem, if_pos rfl] at hj
    obtain ⟨x, _, rfl⟩ := Option.map_eq_some'.mp hj
    exact not_mem_removeClass_self _ _

theorem nsp_showTarget {pid : String} {d : Doc} (h : NoSubmenuPage d) :
    NoSubmenuPage (showTargetPage pid d) := by
  unfold showTargetPage
  cases findIdxById pid d with
  | none => exact h
  | some t => exact nsp_updateAt (fun _ => rfl) (fun e => removeClass_subset) h

theorem ndt_showTarget {pid : String} {d : Doc} (h : NoDropdownTarget pid d) :
    NoDropdownTarget pid (showTargetPage pid d) := by
  unfold showTargetPage
  cases findIdxById pid d with
  | none => exact h
  | some t => exact ndt_updateAt (fun _ => rfl) (fun e => removeClass_subset) h

theorem clearSidebarFun_id (e : Elem) :
    (if "sidebar-link" ∈ e.classes then removeClass "sidebar-active" e else e).id = e.id := by
  by_cases hx : "sidebar-link" ∈ e.classes
  · rw [if_pos hx]; rfl
  · rw [if_neg hx]

theorem clearSidebarFun_mem {x : String} (e : Elem) :
    x ∈ (if "sidebar-link" ∈ e.classes then removeClass "sidebar-active" e else e).classes →
      x ∈ e.classes := by
  by_cases hx : "sidebar-link" ∈ e.classes
  · rw [if_pos hx]; exact removeClass_subset
  · rw [if_neg hx]; exact id

theorem clearSidebarFun_keep {x : String} (hne : x ≠ "sidebar-active") (e : Elem) :
    x ∈ e.classes →
      x ∈ (if "sidebar-link" ∈ e.classes then removeClass "sidebar-active" e else e).classes := by
  by_cases hx : "sidebar-link" ∈ e.classes
  · rw [if_pos hx]; exact fun h => mem_removeClass_of_ne h hne
  · rw [if_neg hx]; exact id

theorem showInv_clearSidebar {pid : String} {d : Doc} (h : ShowInv pid d) :
    ShowInv pid (clearSidebarActive d) := by
  obtain ⟨ho, ht, hs, hn⟩ := h
  exact ⟨otv_map_keep clearSidebarFun_id (fun e => clearSidebarFun_mem e)
      (fun e => clearSidebarFun_keep (by decide) e) ho,
    ts_map_vis clearSidebarFun_id (fun e hv hm => hv (clearSidebarFun_mem e hm)) ht,
    nsp_map clearSidebarFun_id (fun e => clearSidebarFun_mem e) hs,
    ndt_map clearSidebarFun_id (fun e => clearSidebarFun_mem e) hn⟩

theorem closeAllFun_id (e : Elem) :
    (if "dropdown-menu" ∈ e.classes then addClass "hidden" e else e).id = e.id := by
  by_cases hx : "dropdown-menu" ∈ e.classes
  · rw [if_pos hx]; exact addClass_id _ e
  · rw [if_neg hx]

theorem closeAllFun_mem {x : String} (hne : x ≠ "hidden") (e : Elem) :
    x ∈ (if "dropdown-menu" ∈ e.classes then addClass "hidden" e else e).classes →
      x ∈ e.classes := by
  by_cases hx : "dropdown-menu" ∈ e.classes
  · rw [if_pos hx]; exact fun h => mem_addClass_of_ne h hne
  · rw [if_neg hx]; exact id

theorem closeAllFun_keep (x : String) (e : Elem) :
    x ∈ e.classes →
      x ∈ (if "dropdown-menu" ∈ e.classes then addClass "hidden" e else e).classes := by
  by_cases hx : "dropdown-menu" ∈ e.classes
  · rw [if_pos hx]; exact addClass_keep _ _ e
  · rw [if_neg hx]; exact id

theorem ts_closeAll {pid : String} {d : Doc} (hq : NoDropdownTarget pid d)
    (h : TargetShown pid d) : TargetShown pid (closeAllDropdowns d) := by
  intro j e hfind hj
  have hids : idsOf (closeAllDropdowns d) = idsOf d := idsOf_map _ closeAllFun_id d
  rw [findIdxById_congr hids] at hfind
  rw [closeAllDropdowns_getElem] at hj
  obtain ⟨x, hx, rfl⟩ := Option.map_eq_some'.mp hj
  obtain ⟨y, hy, hyid⟩ := findIdxById_spec hfind
  rw [hx] at hy
  injection hy with hy
  subst hy
  rw [if_neg (hq j x hx hyid)]
  exact h j x hfind hx

theorem showInv_closeAll {pid : String} {d : Doc} (h : ShowInv pid d) :
    ShowInv pid (closeAllDropdowns d) := by
  obtain ⟨ho, ht, hs, hn⟩ := h
  refine ⟨?_, ts_closeAll hn ht, ?_, ?_⟩
  · exact otv_map_keep closeAllFun_id (fun e => closeAllFun_mem (by decide) e)
      (fun e => closeAllFun_keep _ e) ho
  · exact nsp_map closeAllFun_id (fun e => closeAllFun_mem (by decide) e) hs
  · intro j e hj hid
    rw [closeAllDropdowns_getElem] at hj
    obtain ⟨x, hx, rfl⟩ := Option.map_eq_some'.mp hj
    by_cases hxdd : "dropdown-menu" ∈ x.classes
    · rw [closeAllFun_id] at hid
      exact absurd hxdd (hn j x hx hid)
    · rw [if_neg hxdd] at *
      exact hn j x hx hid

theorem closestAux_spec {d : Doc} {p : Elem → Bool} :
    ∀ {fuel : ℕ} {j : Option ℕ} {i : ℕ}, closestAux d p fuel j = some i →
      ∃ e, d[i]? = some e ∧ p e = true := by
  intro fuel
  induction fuel with
  | zero => intro j i h; simp [closestAux] at h
  | succ n ih =>
    intro j i h
    cases j with
    | none => simp [closestAux] at h
    | some k =>
      rw [closestAux] at h
      cases hk : d[k]? with
      | none => rw [hk] at h; simp at h
      | some e2 =>
        rw [hk] at h
        dsimp only at h
        by_cases hp : p e2 = true
        · rw [if_pos hp] at h
          injection h with h
          subst h
          exact ⟨e2, hk, hp⟩
        · rw [if_neg hp] at h
          exact ih h

theorem showInv_activate {pid : String} {d : Doc} (h : ShowInv pid d) :
    ∀ r, (activateSidebarLink pid d = .ok r ∨ activateSidebarLink pid d = .error r) →
      ShowInv pid r := by
  intro r hr
  unfold activateSidebarLink at hr
  cases hsl : findSidebarLink pid d with
  | none =>
    rw [hsl] at hr
    dsimp only at hr
    rcases hr with hr | hr
    · injection hr with hr; subst hr; exact h
    · cases hr
  | some li =>
    rw [hsl] at hr
    dsimp only at hr
    have hd1 : ShowInv pid (updateAt li (addClass "sidebar-active") d) :=
      showInv_updateAt_addClass (by decide) (by decide) (by decide) h
    cases hcl : closestAux (updateAt li (addClass "sidebar-active") d) isSubmenuDiv
        (updateAt li (addClass "sidebar-active") d).length (some li) with
    | none =>
      rw [hcl] at hr
      dsimp only at hr
      rcases hr with hr | hr
      · injection hr with hr; subst hr; exact hd1
      · cases hr
    | some si =>
      rw [hcl] at hr
      dsimp only at hr
      cases hse : (updateAt li (addClass "sidebar-active") d)[si]? with
      | none =>
        rw [hse] at hr
        dsimp only at hr
        rcases hr with hr | hr
        · injection hr with hr; subst hr; exact hd1
        · cases hr
      | some se =>
        rw [hse] at hr
        dsimp only at hr
        by_cases hhid : "hidden" ∈ se.classes
        · rw [if_pos hhid] at hr
          cases hpb : findParentButton se.id (updateAt li (addClass "sidebar-active") d) with
          | none =>
            rw [hpb] at hr
            dsimp only at hr
            rcases hr with hr | hr
            · injection hr with hr; subst hr; exact hd1
            · cases hr
          | some bi =>
            rw [hpb] at hr
            dsimp only at hr
            have hpcsi : "page-content" ∉ se.classes := by
              obtain ⟨e2, he2, hpe2⟩ := closestAux_spec hcl
              rw [hse] at he2
              injection he2 with he2
              subst he2
              intro hpc
              have hsw := hd1.2.2.1 si se hse hpc
              unfold isSubmenuDiv at hpe2
              rw [hsw] at hpe2
              simp at hpe2
            have hd2 : ShowInv pid (updateAt si (removeClass "hidden")
                (updateAt li (addClass "sidebar-active") d)) :=
              showInv_updateAt_unhide_submenu
                (fun e he => by rw [hse] at he; injection he with he; subst he; exact hpcsi)
                hd1
            have hd3 : ShowInv pid (updateAt bi (addClass "sidebar-active")
                (updateAt si (removeClass "hidden")
                  (updateAt li (addClass "sidebar-active") d))) :=
              showInv_updateAt_addClass (by decide) (by decide) (by decide) hd2
            cases hqs : querySelectorFrom (updateAt bi (addClass "sidebar-active")
                (updateAt si (removeClass "hidden")
                  (updateAt li (addClass "sidebar-active") d))) bi
                (fun e => decide ("submenu-chevron" ∈ e.classes)) with
            | none =>
              rw [hqs] at hr
              dsimp only at hr
              rcases hr with hr | hr
              · cases hr
              · injection hr with hr; subst hr; exact hd3
            | some ci =>
              rw [hqs] at hr
              dsimp only at hr
              rcases hr with hr | hr
              · injection hr with hr
                subst hr
                exact showInv_updateAt_field (fun e => ⟨rfl, rfl⟩)
                  (showInv_updateAt_addClass (by decide) (by decide) (by decide) hd3)
              · cases hr
        · rw [if_neg hhid] at hr
          rcases hr with hr | hr
          · injection hr with hr; subst hr; exact hd1
          · cases hr

theorem showInv_toggleMobileFalse {pid : String} {d : Doc} (hov : pid ≠ "overlay")
    (h : ShowInv pid d) : ShowInv pid (toggleMobileMenu (some false) d) := by
  unfold toggleMobileMenu
  cases hs : findIdxById "sidebar" d with
  | none => exact h
  | some si =>
    dsimp only
    cases hse : d[si]? with
    | none => exact h
    | some se =>
      dsimp only
      rw [if_neg (by simp)]
      have hd1 : ShowInv pid
          (updateAt si (fun e => removeClass "translate-x-0" (addClass "-translate-x-full" e)) d) := by
        rw [updateAt_comp]
        exact showInv_updateAt_removeClass (by decide)
          (showInv_updateAt_addClass (by decide) (by decide) (by decide) h)
      cases ho : findIdxById "overlay"
          (updateAt si (fun e => removeClass "translate-x-0" (addClass "-translate-x-full" e)) d) with
      | none =>
        dsimp only
        cases findIdxById "mobile-menu-btn"
            (updateAt si (fun e => removeClass "translate-x-0" (addClass "-translate-x-full" e)) d) with
        | none => exact hd1
        | some bi =>
          dsimp only
          rw [if_neg (by simp)]
          exact showInv_updateAt_field (fun e => ⟨rfl, rfl⟩) hd1
      | some oi =>
        dsimp only
        rw [if_neg (by simp)]
        have hd2 : ShowInv pid (updateAt oi (addClass "hidden")
            (updateAt si (fun e => removeClass "translate-x-0" (addClass "-translate-x-full" e)) d)) := by
          refine showInv_updateAt_hide_other (fun e he => ?_) hd1
          obtain ⟨x, hx, hxid⟩ := findIdxById_spec ho
          rw [hx] at he
          injection he with he
          subst he
          rw [hxid]
          exact Ne.symm hov
        cases findIdxById "mobile-menu-btn" (updateAt oi (addClass "hidden")
            (updateAt si (fun e => removeClass "translate-x-0" (addClass "-translate-x-full" e)) d)) with
        | none => exact hd2
        | some bi =>
          dsimp only
          rw [if_neg (by simp)]
          exact showInv_updateAt_field (fun e => ⟨rfl, rfl⟩) hd2

theorem showInv_scroll {pid : String} {d : Doc} (h : ShowInv pid d) :
    ∀ r, (scrollContentTop d = .ok r ∨ scrollContentTop d = .error r) → ShowInv pid r := by
  intro r hr
  unfold scrollContentTop at hr
  cases hc : findIdxById "content-area" d with
  | none =>
    rw [hc] at hr
    rcases hr with hr | hr
    · cases hr
    · injection hr with hr; subst hr; exact h
  | some i =>
    rw [hc] at hr
    dsimp only at hr
    rcases hr with hr | hr
    · injection hr with hr
      subst hr
      exact showInv_updateAt_field (fun e => ⟨rfl, rfl⟩) h
    · cases hr

/-- C8 counterexample: a document in which a hidden submenu container also
carries the `page-content` class.  `showPage` opens that submenu while
activating the sidebar link of the target page, so after the call a
`page-content` element other than the target is visible, refuting the claim
(the document does contain a `content-area` element). -/
theorem c8_show_page_counterexample :
    (∃ e ∈ [({ id := "content-area" } : Elem),
        ({ id := "page-a", classes := ["page-content", "hidden"] } : Elem),
        ({ tag := "div", id := "submenu-1", classes := ["page-content", "hidden"] } : Elem),
        ({ tag := "a", id := "link-a", classes := ["sidebar-link"],
           dataPageId := some "page-a", parent := some 2 } : Elem),
        ({ tag := "button", id := "btn-1", onclickTarget := some "submenu-1" } : Elem),
        ({ tag := "span", id := "chev", classes := ["submenu-chevron"],
           parent := some 4 } : Elem)], e.id = "content-area") ∧
    ¬ (∀ e ∈ finalDoc (showPage 1024 "page-a"
        [({ id := "content-area" } : Elem),
         ({ id := "page-a", classes := ["page-content", "hidden"] } : Elem),
         ({ tag := "div", id := "submenu-1", classes := ["page-content", "hidden"] } : Elem),
         ({ tag := "a", id := "link-a", classes := ["sidebar-link"],
            dataPageId := some "page-a", parent := some 2 } : Elem),
         ({ tag := "button", id := "btn-1", onclickTarget := some "submenu-1" } : Elem),
         ({ tag := "span", id := "chev", classes := ["submenu-chevron"],
            parent := some 4 } : Elem)]),
        "page-content" ∈ e.classes → e.id ≠ "page-a" → "hidden" ∈ e.classes) := by
  decide

/-- C8 (amended): for a document with a `content-area` element, provided no
`page-content` element has an id beginning with `submenu-` (such an element
could be re-opened by the submenu-activation step), no element with the
target id carries the `dropdown-menu` class, and the target id is not
`overlay` (such elements are re-hidden by the dropdown and mobile-menu
steps), after `showPage` every `page-content` element whose id differs from
`pageId` has class `hidden`, and the first element with id `pageId` (when it
exists) does not — so at most one docs page is visible. -/
theorem c8_show_page (w : ℕ) (pid : String) (d : Doc)
    (_hcontent : ∃ e ∈ d, e.id = "content-area")
    (hsub : ∀ e ∈ d, "page-content" ∈ e.classes → strStartsWith "submenu-" e.id = false)
    (hdd : ∀ e ∈ d, e.id = pid → "dropdown-menu" ∉ e.classes)
    (hov : pid ≠ "overlay") :
    (∀ e ∈ finalDoc (showPage w pid d), "page-content" ∈ e.classes → e.id ≠ pid →
      "hidden" ∈ e.classes) ∧
    (∀ (i : ℕ) (e : Elem), findIdxById pid (finalDoc (showPage w pid d)) = some i →
      (finalDoc (showPage w pid d))[i]? = some e → "hidden" ∉ e.classes) := by
  have hsub2 : NoSubmenuPage d := by
    intro j e hj hpc
    exact hsub e (List.mem_iff_getElem?.mpr ⟨j, hj⟩) hpc
  have hdd2 : NoDropdownTarget pid d := by
    intro j e hj hid
    exact hdd e (List.mem_iff_getElem?.mpr ⟨j, hj⟩) hid
  have h2 : ShowInv pid (showTargetPage pid (hideAllPageContent d)) := by
    refine ⟨otv_showTarget (otv_hideAll pid _), ts_showTarget pid _, ?_, ?_⟩
    · exact nsp_showTarget (nsp_hideAll hsub2)
    · exact ndt_showTarget (ndt_hideAll hdd2)
  have h3 : ShowInv pid (clearSidebarActive (showTargetPage pid (hideAllPageContent d))) :=
    showInv_clearSidebar h2
  have hfin : ShowInv pid (finalDoc (showPage w pid d)) := by
    unfold showPage
    dsimp only
    cases hact : activateSidebarLink pid
        (clearSidebarActive (showTargetPage pid (hideAllPageContent d))) with
    | error s =>
      dsimp only [finalDoc]
      exact showInv_activate h3 s (Or.inr hact)
    | ok d4 =>
      dsimp only
      have h4 : ShowInv pid d4 := showInv_activate h3 d4 (Or.inl hact)
      have h5 : ShowInv pid (if w < 768 then toggleMobileMenu (some false) d4 else d4) := by
        by_cases hw : w < 768
        · rw [if_pos hw]; exact showInv_toggleMobileFalse hov h4
        · rw [if_neg hw]; exact h4
      have h6 : ShowInv pid (closeAllDropdowns
          (if w < 768 then toggleMobileMenu (some false) d4 else d4)) :=
        showInv_closeAll h5
      cases hsc : scrollContentTop (closeAllDropdowns
          (if w < 768 then toggleMobileMenu (some false) d4 else d4)) with
      | error s =>
        dsimp only [finalDoc]
        exact showInv_scroll h6 s (Or.inr hsc)
      | ok d7 =>
        dsimp only [finalDoc]
        exact showInv_scroll h6 d7 (Or.inl hsc)
  refine ⟨?_, hfin.2.1⟩
  intro e hmem hpc hne
  obtain ⟨i, hi⟩ := List.mem_iff_getElem?.mp hmem
  exact hfin.1 i e hi hpc hne

/-- Witness for C8 at a concrete input: a document with a content area and
two docs pages; after showing `page-a`, the other page carries `hidden`. -/
theorem c8_show_page_witness :
    "hidden" ∈ (addClass "hidden"
      ({ id := "page-b", classes := ["page-content"] } : Elem)).classes :=
  (c8_show_page 1024 "page-a"
      [({ id := "content-area" } : Elem),
       ({ id := "page-a", classes := ["page-content"] } : Elem),
       ({ id := "page-b", classes := ["page-content"] } : Elem)]
      (by decide) (by decide) (by decide) (by decide)).1
    (addClass "hidden" ({ id := "page-b", classes := ["page-content"] } : Elem))
    (by decide) (by decide) (by decide)

/-! ## C2 machinery: the greedy pairing uses each peak at most once -/

theorem argBest_decomp {better : α → α → Prop} [DecidableRel better]
    (hasymm : ∀ a b, better a b → ¬ better b a)
    (hneg : ∀ a b c, ¬ better a b → ¬ better b c → ¬ better a c) :
    ∀ {l : List α} {x : α}, argBest better l = some x →
      ∃ l1 l2, l = l1 ++ x :: l2 ∧ (∀ z ∈ l1, better x z) ∧ (∀ z ∈ l2, ¬ better z x) := by
  intro l
  induction l with
  | nil => intro x h; simp [argBest] at h
  | cons a xs ih =>
    intro x h
    rw [argBest] at h
    cases h2 : argBest better xs with
    | none =>
      rw [h2] at h
      dsimp only at h
      injection h with h
      subst h
      refine ⟨[], xs, rfl, by simp, ?_⟩
      rw [argBest_eq_none.mp h2]
      simp
    | some y =>
      rw [h2] at h
      dsimp only at h
      by_cases hb : better y a
      · rw [if_pos hb] at h
        injection h with h
        subst h
        obtain ⟨l1, l2, heq, h1, hl2⟩ := ih h2
        exact ⟨a :: l1, l2, by rw [heq]; rfl, by
          intro z hz
          rcases List.mem_cons.mp hz with rfl | hz2
          · exact hb
          · exact h1 z hz2, hl2⟩
      · rw [if_neg hb] at h
        injection h with h
        subst h
        exact ⟨[], xs, rfl, by simp,
          fun z hz => hneg z y _ (argBest_not_better hasymm hneg h2 z hz) hb⟩

theorem matchCands_mem {tol : ℚ} {q r : Spectrum} {x : (ℚ × ℚ) × (ℚ × ℚ)}
    (h : x ∈ matchCands tol q r) : x.1 ∈ q ∧ x.2 ∈ r := by
  unfold matchCands at h
  rcases List.mem_flatMap.mp h with ⟨a, ha, hx⟩
  rcases List.mem_map.mp hx with ⟨b, hb, rfl⟩
  exact ⟨ha, (List.mem_filter.mp hb).1⟩

theorem perm_cons_eraseFirst {a : ℚ × ℚ} : ∀ {l : Spectrum}, a ∈ l →
    l.Perm (a :: eraseFirst l a) := by
  intro l
  induction l with
  | nil => intro h; simp at h
  | cons x xs ih =>
    intro h
    rw [eraseFirst]
    by_cases hx : x = a
    · rw [if_pos hx]
      subst hx
      exact List.Perm.refl _
    · rw [if_neg hx]
      have hax : a ∈ xs := by
        rcases List.mem_cons.mp h with h2 | h2
        · exact absurd h2.symm hx
        · exact h2
      exact List.Perm.trans ((ih hax).cons x) (List.Perm.swap a x _)

theorem mem_of_mem_eraseFirst {a b : ℚ × ℚ} : ∀ {l : Spectrum},
    b ∈ eraseFirst l a → b ∈ l := by
  intro l
  induction l with
  | nil => intro h; simp [eraseFirst] at h
  | cons x xs ih =>
    intro h
    rw [eraseFirst] at h
    by_cases hx : x = a
    · rw [if_pos hx] at h
      exact List.mem_cons_of_mem x h
    · rw [if_neg hx] at h
      rcases List.mem_cons.mp h with h2 | h2
      · exact h2 ▸ List.mem_cons_self x xs
      · exact List.mem_cons_of_mem x (ih h2)

theorem eraseFirst_middle {p0 : ℚ × ℚ} : ∀ {l1 l2 : Spectrum}, p0 ∉ l1 →
    eraseFirst (l1 ++ p0 :: l2) p0 = l1 ++ l2 := by
  intro l1
  induction l1 with
  | nil => intro l2 _; rw [List.nil_append, eraseFirst, if_pos rfl]; rfl
  | cons x l1 ih =>
    intro l2 hn
    rw [List.cons_append, eraseFirst,
      if_neg (fun hx => hn (by rw [← hx]; exact List.mem_cons_self x l1)),
      ih (fun h => hn (List.mem_cons_of_mem x h)), List.cons_append]

theorem greedyMatch_perm (tol : ℚ) :
    ∀ (fuel : ℕ) (q r : Spectrum),
      ((greedyMatch tol fuel q r).1.map (fun x => x.1) ++
        (greedyMatch tol fuel q r).2.1).Perm q ∧
      ((greedyMatch tol fuel q r).1.map (fun x => x.2) ++
        (greedyMatch tol fuel q r).2.2).Perm r := by
  intro fuel
  induction fuel with
  | zero => intro q r; simp [greedyMatch]
  | succ n ih =>
    intro q r
    rw [greedyMatch]
    cases hab : argBest betterPair (matchCands tol q r) with
    | none => simp
    | some ab =>
      obtain ⟨a, b⟩ := ab
      dsimp only
      have hmem := matchCands_mem (argBest_mem hab)
      constructor
      · refine List.Perm.trans ?_ (perm_cons_eraseFirst hmem.1).symm
        simpa using ((ih (eraseFirst q a) (eraseFirst r b)).1.cons a)
      · refine List.Perm.trans ?_ (perm_cons_eraseFirst hmem.2).symm
        simpa using ((ih (eraseFirst q a) (eraseFirst r b)).2.cons b)

/-! ## C2 machinery: the Cauchy-Schwarz bound for the cosine scores -/

theorem sum_map_eraseFirst (f : (ℚ × ℚ) → ℝ) {l : Spectrum} {a : ℚ × ℚ}
    (ha : a ∈ l) : (l.map f).sum = f a + ((eraseFirst l a).map f).sum := by
  rw [((perm_cons_eraseFirst ha).map f).sum_eq]
  simp

theorem normTerm_nonneg (g : ℚ → ℝ) (s : Spectrum) : 0 ≤ normTerm g s :=
  Real.sqrt_nonneg _

theorem sumSq_nonneg (g : ℚ → ℝ) (s : Spectrum) : 0 ≤ sumSq g s := by
  refine List.sum_nonneg ?_
  intro x hx
  rcases List.mem_map.mp hx with ⟨p, _, rfl⟩
  positivity

theorem sumSq_erase (g : ℚ → ℝ) {s : Spectrum} {a : ℚ × ℚ} (ha : a ∈ s) :
    sumSq g s = g a.2 ^ 2 + sumSq g (eraseFirst s a) := by
  unfold sumSq
  exact sum_map_eraseFirst _ ha

theorem sqrt_step {a b X Y : ℝ} (ha : 0 ≤ a) (hb : 0 ≤ b) (hX : 0 ≤ X) (hY : 0 ≤ Y) :
    a * b + Real.sqrt X * Real.sqrt Y ≤ Real.sqrt (a ^ 2 + X) * Real.sqrt (b ^ 2 + Y) := by
  have hsX := Real.sq_sqrt hX
  have hsY := Real.sq_sqrt hY
  have hnX := Real.sqrt_nonneg X
  have hnY := Real.sqrt_nonneg Y
  have hL : 0 ≤ a * b + Real.sqrt X * Real.sqrt Y := by positivity
  have hR2 : (a * b + Real.sqrt X * Real.sqrt Y) ^ 2 ≤ (a ^ 2 + X) * (b ^ 2 + Y) := by
    nlinarith [sq_nonneg (a * Real.sqrt Y - b * Real.sqrt X)]
  calc a * b + Real.sqrt X * Real.sqrt Y
      = Real.sqrt ((a * b + Real.sqrt X * Real.sqrt Y) ^ 2) := (Real.sqrt_sq hL).symm
    _ ≤ Real.sqrt ((a ^ 2 + X) * (b ^ 2 + Y)) := Real.sqrt_le_sqrt hR2
    _ = Real.sqrt (a ^ 2 + X) * Real.sqrt (b ^ 2 + Y) := Real.sqrt_mul (by positivity) _

theorem greedy_sum_bounds (g : ℚ → ℝ) (tol : ℚ) :
    ∀ (fuel : ℕ) (q r : Spectrum), (∀ p ∈ q, 0 ≤ g p.2) → (∀ p ∈ r, 0 ≤ g p.2) →
      0 ≤ sumScore g (greedyMatch tol fuel q r).1 ∧
        sumScore g (greedyMatch tol fuel q r).1 ≤ normTerm g q * normTerm g r := by
  intro fuel
  induction fuel with
  | zero =>
    intro q r _ _
    refine ⟨by simp [greedyMatch, sumScore], ?_⟩
    simp only [greedyMatch, sumScore, List.map_nil, List.sum_nil]
    exact mul_nonneg (normTerm_nonneg g q) (normTerm_nonneg g r)
  | succ n ih =>
    intro q r hq hr
    rw [greedyMatch]
    cases hab : argBest betterPair (matchCands tol q r) with
    | none =>
      refine ⟨by simp [sumScore], ?_⟩
      simp only [sumScore, List.map_nil, List.sum_nil]
      exact mul_nonneg (normTerm_nonneg g q) (normTerm_nonneg g r)
    | some ab =>
      obtain ⟨a, b⟩ := ab
      dsimp only
      have hmem := matchCands_mem (argBest_mem hab)
      have hga : 0 ≤ g a.2 := hq a hmem.1
      have hgb : 0 ≤ g b.2 := hr b hmem.2
      have ihe := ih (eraseFirst q a) (eraseFirst r b)
        (fun p hp => hq p (mem_of_mem_eraseFirst hp))
        (fun p hp => hr p (mem_of_mem_eraseFirst hp))
      have hscons : sumScore g ((a, b) :: (greedyMatch tol n (eraseFirst q a) (eraseFirst r b)).1) =
          g a.2 * g b.2 + sumScore g (greedyMatch tol n (eraseFirst q a) (eraseFirst r b)).1 := by
        simp [sumScore]
      rw [hscons]
      refine ⟨add_nonneg (mul_nonneg hga hgb) ihe.1, ?_⟩
      have hstep := sqrt_step hga hgb (sumSq_nonneg g (eraseFirst q a)) (sumSq_nonneg g (eraseFirst r b))
      have hq2 : sumSq g q = g a.2 ^ 2 + sumSq g (eraseFirst q a) := sumSq_erase g hmem.1
      have hr2 : sumSq g r = g b.2 ^ 2 + sumSq g (eraseFirst r b) := sumSq_erase g hmem.2
      have hupper := ihe.2
      simp only [normTerm] at hupper hstep ⊢
      rw [hq2, hr2]
      linarith

theorem cosineWith_bounds (g : ℚ → ℝ) (tol : ℚ) (q r : Spectrum)
    (hq : ∀ p ∈ q, 0 ≤ g p.2) (hr : ∀ p ∈ r, 0 ≤ g p.2) :
    0 ≤ cosineWith g tol q r ∧ cosineWith g tol q r ≤ 1 := by
  have hb := greedy_sum_bounds g tol q.length q r hq hr
  unfold cosineWith matchedPairs
  have hDnn : 0 ≤ normTerm g q * normTerm g r :=
    mul_nonneg (normTerm_nonneg g q) (normTerm_nonneg g r)
  by_cases hD0 : normTerm g q * normTerm g r = 0
  · rw [hD0]
    simp
  · have hDpos : 0 < normTerm g q * normTerm g r := lt_of_le_of_ne hDnn (Ne.symm hD0)
    exact ⟨div_nonneg hb.1 hDnn, (div_le_one hDpos).mpr hb.2⟩

/-! ## C2 machinery: matching a well-formed spectrum against itself is the
identity pairing -/

theorem greedy_self (tol : ℚ) (htol : 0 ≤ tol) :
    ∀ (n : ℕ) (S : Spectrum), S.length = n → WellFormed S →
      ((greedyMatch tol n S S).1).Perm (S.map (fun p => (p, p))) := by
  intro n
  induction n using Nat.strong_induction_on with
  | _ n ih =>
    intro S hlen hWF
    cases S with
    | nil =>
      subst hlen
      simp [greedyMatch]
    | cons p S0 =>
      have hasymmI : ∀ a b : ℚ × ℚ, b.2 < a.2 → ¬ a.2 < b.2 :=
        fun a b h => not_lt.mpr (le_of_lt h)
      have hnegI : ∀ a b c : ℚ × ℚ, ¬ (b.2 < a.2) → ¬ (c.2 < b.2) → ¬ (c.2 < a.2) :=
        fun a b c h1 h2 => not_lt.mpr ((not_lt.mp h1).trans (not_lt.mp h2))
      obtain ⟨p0, hp0⟩ : ∃ p0, argBest (fun a b : ℚ × ℚ => b.2 < a.2) (p :: S0) = some p0 := by
        cases h : argBest (fun a b : ℚ × ℚ => b.2 < a.2) (p :: S0) with
        | none => exact absurd (argBest_eq_none.mp h) (by simp)
        | some x => exact ⟨x, rfl⟩
      obtain ⟨l1, l2, hdecomp, hl1, hl2⟩ := argBest_decomp hasymmI hnegI hp0
      have hp0mem : p0 ∈ p :: S0 := argBest_mem hp0
      have hp0pos : 0 < p0.2 := hWF.2 p0 hp0mem
      have hall : ∀ z ∈ p :: S0, z.2 ≤ p0.2 := by
        intro z hz
        rw [hdecomp] at hz
        rcases List.mem_append.mp hz with hz1 | hz2
        · exact le_of_lt (hl1 z hz1)
        · rcases List.mem_cons.mp hz2 with rfl | hz3
          · exact le_refl _
          · exact not_lt.mp (hl2 z hz3)
      have hposall : ∀ z ∈ p :: S0, 0 < z.2 := hWF.2
      rw [hdecomp] at hlen hWF hall hposall ⊢
      have hP0 : (fun b : ℚ × ℚ => decide (|p0.1 - b.1| ≤ tol)) p0 = true := by
        simp only [sub_self, abs_zero, decide_eq_true_eq]
        exact htol
      have hsplit : matchCands tol (l1 ++ p0 :: l2) (l1 ++ p0 :: l2) =
          (l1.flatMap (fun a => (((l1 ++ p0 :: l2).filter
              (fun b => decide (|a.1 - b.1| ≤ tol))).map (fun b => (a, b)))) ++
            ((l1.filter (fun b => decide (|p0.1 - b.1| ≤ tol))).map (fun b => (p0, b)))) ++
          (p0, p0) ::
          (((l2.filter (fun b => decide (|p0.1 - b.1| ≤ tol))).map (fun b => (p0, b))) ++
            l2.flatMap (fun a => (((l1 ++ p0 :: l2).filter
              (fun b => decide (|a.1 - b.1| ≤ tol))).map (fun b => (a, b))))) := by
        have hfc : List.filter (fun b : ℚ × ℚ => decide (|p0.1 - b.1| ≤ tol)) (p0 :: l2) =
            p0 :: List.filter (fun b : ℚ × ℚ => decide (|p0.1 - b.1| ≤ tol)) l2 :=
          List.filter_cons_of_pos hP0
        conv_lhs => rw [matchCands]
        rw [List.flatMap_append, List.flatMap_cons, List.filter_append, hfc,
          List.map_append, List.map_cons]
        simp only [List.append_assoc, List.cons_append]
      have hargm : argBest betterPair
          (matchCands tol (l1 ++ p0 :: l2) (l1 ++ p0 :: l2)) = some (p0, p0) := by
        rw [hsplit]
        apply argBest_of_decomp
        · intro z hz
          rcases List.mem_append.mp hz with hz1 | hz2
          · rcases List.mem_flatMap.mp hz1 with ⟨a, ha, hz3⟩
            rcases List.mem_map.mp hz3 with ⟨b, hb, rfl⟩
            have hbL : b ∈ l1 ++ p0 :: l2 := (List.mem_filter.mp hb).1
            have haL : a ∈ l1 ++ p0 :: l2 := List.mem_append.mpr (Or.inl ha)
            show pairKey (a, b) < pairKey (p0, p0)
            unfold pairKey
            calc a.2 * b.2 ≤ a.2 * p0.2 :=
                  mul_le_mul_of_nonneg_left (hall b hbL) (le_of_lt (hposall a haL))
              _ < p0.2 * p0.2 := mul_lt_mul_of_pos_right (hl1 a ha) hp0pos
          · rcases List.mem_map.mp hz2 with ⟨b, hb, rfl⟩
            have hbl1 : b ∈ l1 := (List.mem_filter.mp hb).1
            show pairKey (p0, b) < pairKey (p0, p0)
            unfold pairKey
            exact mul_lt_mul_of_pos_left (hl1 b hbl1) hp0pos
        · intro z hz
          rcases List.mem_append.mp hz with hz1 | hz2
          · rcases List.mem_map.mp hz1 with ⟨b, hb, rfl⟩
            have hbl2 : b ∈ l2 := (List.mem_filter.mp hb).1
            have hble : b.2 ≤ p0.2 := not_lt.mp (hl2 b hbl2)
            show ¬ pairKey (p0, p0) < pairKey (p0, b)
            unfold pairKey
            exact not_lt.mpr (mul_le_mul_of_nonneg_left hble (le_of_lt hp0pos))
          · rcases List.mem_flatMap.mp hz2 with ⟨a, ha, hz3⟩
            rcases List.mem_map.mp hz3 with ⟨b, hb, rfl⟩
            have hbL : b ∈ l1 ++ p0 :: l2 := (List.mem_filter.mp hb).1
            have haL : a ∈ l1 ++ p0 :: l2 :=
              List.mem_append.mpr (Or.inr (List.mem_cons_of_mem p0 ha))
            have hale : a.2 ≤ p0.2 := not_lt.mp (hl2 a ha)
            show ¬ pairKey (p0, p0) < pairKey (a, b)
            unfold pairKey
            exact not_lt.mpr (mul_le_mul hale (hall b hbL) (le_of_lt (hposall b hbL))
              (le_of_lt hp0pos))
      have hp0notl1 : p0 ∉ l1 := fun h => lt_irrefl p0.2 (hl1 p0 h)
      have herase : eraseFirst (l1 ++ p0 :: l2) p0 = l1 ++ l2 := eraseFirst_middle hp0notl1
      cases n with
      | zero => simp at hlen
      | succ m =>
        rw [greedyMatch, hargm]
        dsimp only
        rw [herase]
        have hlen2 : (l1 ++ l2).length = m := by
          simp only [List.length_append, List.length_cons] at hlen ⊢
          omega
        have hWF2 : WellFormed (l1 ++ l2) := by
          constructor
          · exact List.Pairwise.sublist
              ((List.sublist_cons_self p0 l2).append_left l1) hWF.1
          · intro z hz
            rcases List.mem_append.mp hz with hz1 | hz2
            · exact hposall z (List.mem_append.mpr (Or.inl hz1))
            · exact hposall z (List.mem_append.mpr (Or.inr (List.mem_cons_of_mem p0 hz2)))
        have hperm2 := ih m (by omega) (l1 ++ l2) hlen2 hWF2
        refine List.Perm.trans (hperm2.cons (p0, p0)) ?_
        have e1 : (l1 ++ p0 :: l2).map (fun p => (p, p)) =
            l1.map (fun p => (p, p)) ++ (p0, p0) :: l2.map (fun p => (p, p)) := by
          simp
        have e2 : ((l1 ++ l2).map (fun p => (p, p))) =
            l1.map (fun p => (p, p)) ++ l2.map (fun p => (p, p)) := by
          simp
        rw [e1, e2]
        exact List.perm_middle.symm

theorem dot_product_self (tol : ℚ) (S : Spectrum) (hWF : WellFormed S) (hne : S ≠ [])
    (htol : 0 ≤ tol) : dot_product tol S S = 1 := by
  have hperm := greedy_self tol htol S.length S rfl hWF
  unfold dot_product cosineWith matchedPairs
  have hsum : sumScore (fun x => (x : ℝ)) (greedyMatch tol S.length S S).1 =
      sumSq (fun x => (x : ℝ)) S := by
    unfold sumScore sumSq
    rw [(hperm.map _).sum_eq, List.map_map]
    apply congrArg List.sum
    apply List.map_congr_left
    intro p _
    simp [Function.comp, pow_two]
  rw [hsum]
  have hXpos : 0 < sumSq (fun x => (x : ℝ)) S := by
    unfold sumSq
    apply List.sum_pos
    · intro x hx
      rcases List.mem_map.mp hx with ⟨p, hp, rfl⟩
      have := hWF.2 p hp
      positivity
    · simpa [List.map_eq_nil_iff] using hne
  have hDD : normTerm (fun x => (x : ℝ)) S * normTerm (fun x => (x : ℝ)) S =
      sumSq (fun x => (x : ℝ)) S := by
    unfold normTerm
    exact Real.mul_self_sqrt (le_of_lt hXpos)
  rw [hDD]
  exact div_self (ne_of_gt hXpos)

/-! ## C2 machinery: entropy similarity lies in the unit interval -/

theorem sum_map_div (l : List (ℝ × ℝ)) (f : ℝ × ℝ → ℝ) (T : ℝ) :
    (l.map (fun x => f x / T)).sum = (l.map f).sum / T := by
  induction l with
  | nil => simp
  | cons a l ih => simp [ih, add_div]

theorem sum_map_mul_const (l : List (ℝ × ℝ)) (f : ℝ × ℝ → ℝ) (c : ℝ) :
    (l.map (fun x => f x * c)).sum = (l.map f).sum * c := by
  induction l with
  | nil => simp
  | cons a l ih => simp [ih, add_mul]

theorem sum_map_add (l : List (ℝ × ℝ)) (f g : ℝ × ℝ → ℝ) :
    (l.map (fun x => f x + g x)).sum = (l.map f).sum + (l.map g).sum := by
  induction l with
  | nil => simp
  | cons a l ih => simp [ih]; ring

theorem jsTerm_nonneg {x : ℝ × ℝ} (h1 : 0 ≤ x.1) (h2 : 0 ≤ x.2) : 0 ≤ jsTerm x := by
  obtain ⟨p, q⟩ := x
  simp only [jsTerm, Real.negMulLog] at *
  rcases eq_or_lt_of_le h1 with hp0 | hp
  · rw [← hp0]
    rcases eq_or_lt_of_le h2 with hq0 | hq
    · rw [← hq0]; simp
    · have hlog : Real.log ((0 + q) / 2) = Real.log q - Real.log 2 := by
        rw [zero_add]
        exact Real.log_div (ne_of_gt hq) two_ne_zero
      rw [hlog]
      have h2pos : 0 ≤ Real.log 2 := Real.log_nonneg one_le_two
      nlinarith [hq, h2pos]
  · rcases eq_or_lt_of_le h2 with hq0 | hq
    · rw [← hq0]
      have hlog : Real.log ((p + 0) / 2) = Real.log p - Real.log 2 := by
        rw [add_zero]
        exact Real.log_div (ne_of_gt hp) two_ne_zero
      rw [hlog]
      have h2pos : 0 ≤ Real.log 2 := Real.log_nonneg one_le_two
      nlinarith [hp, h2pos]
    · have hs : 0 < p + q := by linarith
      have key : ∀ t : ℝ, 0 < t →
          t - (p + q) / 2 ≤ t * (Real.log 2 + Real.log t - Real.log (p + q)) := by
        intro t ht
        have harg : 0 < 2 * t / (p + q) := by positivity
        have hlb : 1 - (2 * t / (p + q))⁻¹ ≤ Real.log (2 * t / (p + q)) :=
          Real.one_sub_inv_le_log_of_pos harg
        have hexp : Real.log (2 * t / (p + q)) =
            Real.log 2 + Real.log t - Real.log (p + q) := by
          rw [Real.log_div (by positivity) (ne_of_gt hs),
            Real.log_mul two_ne_zero (ne_of_gt ht)]
        rw [hexp] at hlb
        have hinv : (2 * t / (p + q))⁻¹ = (p + q) / (2 * t) := by
          field_simp
        rw [hinv] at hlb
        have hmul := mul_le_mul_of_nonneg_left hlb (le_of_lt ht)
        have hident : t * (1 - (p + q) / (2 * t)) = t - (p + q) / 2 := by
          field_simp
          ring
        rw [hident] at hmul
        exact hmul
      have kp := key p hp
      have kq := key q hq
      have hlm : Real.log ((p + q) / 2) = Real.log (p + q) - Real.log 2 :=
        Real.log_div (ne_of_gt hs) two_ne_zero
      rw [hlm]
      nlinarith [kp, kq]

theorem jsTerm_le {x : ℝ × ℝ} (h1 : 0 ≤ x.1) (h2 : 0 ≤ x.2) :
    jsTerm x ≤ (x.1 + x.2) * Real.log 2 := by
  obtain ⟨p, q⟩ := x
  simp only [jsTerm, Real.negMulLog] at *
  by_cases hs : p + q = 0
  · have hp0 : p = 0 := by linarith
    have hq0 : q = 0 := by linarith
    simp [hp0, hq0]
  · have hspos : 0 < p + q := lt_of_le_of_ne (by linarith) (Ne.symm hs)
    have hlm : Real.log ((p + q) / 2) = Real.log (p + q) - Real.log 2 :=
      Real.log_div (ne_of_gt hspos) two_ne_zero
    have hple : p * Real.log p ≤ p * Real.log (p + q) := by
      rcases eq_or_lt_of_le h1 with hp0 | hp
      · rw [← hp0]; simp
      · exact mul_le_mul_of_nonneg_left (Real.log_le_log hp (by linarith)) h1
    have hqle : q * Real.log q ≤ q * Real.log (p + q) := by
      rcases eq_or_lt_of_le h2 with hq0 | hq
      · rw [← hq0]; simp
      · exact mul_le_mul_of_nonneg_left (Real.log_le_log hq (by linarith)) h2
    rw [hlm]
    nlinarith [hple, hqle]

theorem alignedWith_nonneg (g : ℚ → ℝ) (tol : ℚ) (q r : Spectrum)
    (hq : ∀ p ∈ q, 0 ≤ g p.2) (hr : ∀ p ∈ r, 0 ≤ g p.2) :
    ∀ x ∈ alignedWith g tol q r, 0 ≤ x.1 ∧ 0 ≤ x.2 := by
  intro x hx
  unfold alignedWith matchedPairs leftoverQ leftoverR at hx
  have hpermQ := (greedyMatch_perm tol q.length q r).1
  have hpermR := (greedyMatch_perm tol q.length q r).2
  rcases List.mem_append.mp hx with h1 | h23
  · rcases List.mem_map.mp h1 with ⟨y, hy, rfl⟩
    constructor
    · exact hq y.1 (hpermQ.mem_iff.mp (List.mem_append.mpr
        (Or.inl (List.mem_map_of_mem (fun x => x.1) hy))))
    · exact hr y.2 (hpermR.mem_iff.mp (List.mem_append.mpr
        (Or.inl (List.mem_map_of_mem (fun x => x.2) hy))))
  · rcases List.mem_append.mp h23 with h2 | h3
    · rcases List.mem_map.mp h2 with ⟨p, hp, rfl⟩
      exact ⟨hq p (hpermQ.mem_iff.mp (List.mem_append.mpr (Or.inr hp))), le_refl 0⟩
    · rcases List.mem_map.mp h3 with ⟨p, hp, rfl⟩
      exact ⟨le_refl 0, hr p (hpermR.mem_iff.mp (List.mem_append.mpr (Or.inr hp)))⟩

theorem sum_map_zero (l : Spectrum) : (l.map (fun _ => (0 : ℝ))).sum = 0 := by
  induction l with
  | nil => simp
  | cons a l ih => simp [ih]

theorem alignedWith_sum_fst (g : ℚ → ℝ) (tol : ℚ) (q r : Spectrum) :
    ((alignedWith g tol q r).map (fun x => x.1)).sum = sumInt g q := by
  have hperm := (greedyMatch_perm tol q.length q r).1
  unfold alignedWith matchedPairs leftoverQ leftoverR sumInt
  rw [← (hperm.map (fun p => g p.2)).sum_eq]
  simp [List.map_map, Function.comp_def, sum_map_zero]

theorem alignedWith_sum_snd (g : ℚ → ℝ) (tol : ℚ) (q r : Spectrum) :
    ((alignedWith g tol q r).map (fun x => x.2)).sum = sumInt g r := by
  have hperm := (greedyMatch_perm tol q.length q r).2
  unfold alignedWith matchedPairs leftoverQ leftoverR sumInt
  rw [← (hperm.map (fun p => g p.2)).sum_eq]
  simp [List.map_map, Function.comp_def, sum_map_zero]

theorem entropyCore_bounds (g : ℚ → ℝ) (tol : ℚ) (q r : Spectrum)
    (hq : ∀ p ∈ q, 0 < g p.2) (hr : ∀ p ∈ r, 0 < g p.2) :
    0 ≤ entropyCore g tol q r ∧ entropyCore g tol q r ≤ 1 := by
  unfold entropyCore
  by_cases hqr : q = [] ∨ r = []
  · rw [if_pos hqr]
    norm_num
  · rw [if_neg hqr]
    push_neg at hqr
    have hTq : 0 < sumInt g q := by
      unfold sumInt
      apply List.sum_pos
      · intro x hx
        rcases List.mem_map.mp hx with ⟨p, hp, rfl⟩
        exact hq p hp
      · simpa [List.map_eq_nil_iff] using hqr.1
    have hTr : 0 < sumInt g r := by
      unfold sumInt
      apply List.sum_pos
      · intro x hx
        rcases List.mem_map.mp hx with ⟨p, hp, rfl⟩
        exact hr p hp
      · simpa [List.map_eq_nil_iff] using hqr.2
    have hAnn := alignedWith_nonneg g tol q r (fun p hp => le_of_lt (hq p hp))
      (fun p hp => le_of_lt (hr p hp))
    have hlog2 : 0 < Real.log 2 := Real.log_pos one_lt_two
    have hdist : ∀ x ∈ alignedDist g tol q r, 0 ≤ x.1 ∧ 0 ≤ x.2 := by
      intro x hx
      unfold alignedDist at hx
      rcases List.mem_map.mp hx with ⟨y, hy, rfl⟩
      exact ⟨div_nonneg (hAnn y hy).1 (le_of_lt hTq),
        div_nonneg (hAnn y hy).2 (le_of_lt hTr)⟩
    have hsum1 : ((alignedDist g tol q r).map (fun x => x.1)).sum = 1 := by
      unfold alignedDist
      rw [List.map_map]
      have hc : ((fun x : ℝ × ℝ => x.1) ∘
          (fun x : ℝ × ℝ => (x.1 / sumInt g q, x.2 / sumInt g r))) =
          fun x : ℝ × ℝ => x.1 / sumInt g q := rfl
      rw [hc, sum_map_div, alignedWith_sum_fst]
      exact div_self (ne_of_gt hTq)
    have hsum2 : ((alignedDist g tol q r).map (fun x => x.2)).sum = 1 := by
      unfold alignedDist
      rw [List.map_map]
      have hc : ((fun x : ℝ × ℝ => x.2) ∘
          (fun x : ℝ × ℝ => (x.1 / sumInt g q, x.2 / sumInt g r))) =
          fun x : ℝ × ℝ => x.2 / sumInt g r := rfl
      rw [hc, sum_map_div, alignedWith_sum_snd]
      exact div_self (ne_of_gt hTr)
    have hJ0 : 0 ≤ ((alignedDist g tol q r).map jsTerm).sum := by
      refine List.sum_nonneg ?_
      intro y hy
      rcases List.mem_map.mp hy with ⟨x, hx, rfl⟩
      exact jsTerm_nonneg (hdist x hx).1 (hdist x hx).2
    have hJle : ((alignedDist g tol q r).map jsTerm).sum ≤ 2 * Real.log 2 := by
      have hle := List.sum_le_sum (fun x hx => jsTerm_le (hdist x hx).1 (hdist x hx).2)
      have heq : ((alignedDist g tol q r).map (fun x => (x.1 + x.2) * Real.log 2)).sum =
          2 * Real.log 2 := by
        rw [sum_map_mul_const, sum_map_add, hsum1, hsum2]
        ring
      rw [heq] at hle
      exact hle
    constructor
    · have hd : ((alignedDist g tol q r).map jsTerm).sum / (2 * Real.log 2) ≤ 1 :=
        (div_le_one (by positivity)).mpr hJle
      linarith
    · have hd : 0 ≤ ((alignedDist g tol q r).map jsTerm).sum / (2 * Real.log 2) :=
        div_nonneg hJ0 (by positivity)
      linarith

/-! ## C2: scores are in the unit interval and the dot product is reflexive -/

/-- C2: for every pair of well-formed spectra and every method selector, the
Spectral Matcher's score lies in the unit interval, and the dot product of a
non-empty well-formed spectrum with itself is exactly 1. -/
theorem c2_similarity_bounds :
    (∀ (m : Method) (tol : ℚ) (q r : Spectrum), WellFormed q → WellFormed r →
      0 ≤ similarity m tol q r ∧ similarity m tol q r ≤ 1) ∧
    (∀ (tol : ℚ) (S : Spectrum), WellFormed S → S ≠ [] → 0 ≤ tol →
      dot_product tol S S = 1) := by
  constructor
  · intro m tol q r hq hr
    cases m with
    | dot_product =>
      exact cosineWith_bounds (fun x => (x : ℝ)) tol q r
        (fun p hp => le_of_lt (Rat.cast_pos.mpr (hq.2 p hp)))
        (fun p hp => le_of_lt (Rat.cast_pos.mpr (hr.2 p hp)))
    | weighted_dot_product =>
      exact cosineWith_bounds (fun x => Real.sqrt (x : ℝ)) tol q r
        (fun p _ => Real.sqrt_nonneg _) (fun p _ => Real.sqrt_nonneg _)
    | entropy_similarity =>
      exact entropyCore_bounds (fun x => Real.sqrt (x : ℝ)) tol q r
        (fun p hp => Real.sqrt_pos.mpr (Rat.cast_pos.mpr (hq.2 p hp)))
        (fun p hp => Real.sqrt_pos.mpr (Rat.cast_pos.mpr (hr.2 p hp)))
    | unweighted_entropy_similarity =>
      exact entropyCore_bounds (fun x => (x : ℝ)) tol q r
        (fun p hp => Rat.cast_pos.mpr (hq.2 p hp))
        (fun p hp => Rat.cast_pos.mpr (hr.2 p hp))
  · intro tol S hWF hne htol
    exact dot_product_self tol S hWF hne htol

/-- Witness for C2 at concrete inputs: a two-peak and a one-peak well-formed
spectrum for the bound, and a one-peak spectrum matched against itself for
the reflexivity of the dot product. -/
theorem c2_similarity_bounds_witness :
    (0 ≤ similarity Method.entropy_similarity 1
        [((100 : ℚ), (1 : ℚ)), ((200 : ℚ), (3 : ℚ))] [((150 : ℚ), (2 : ℚ))] ∧
      similarity Method.entropy_similarity 1
        [((100 : ℚ), (1 : ℚ)), ((200 : ℚ), (3 : ℚ))] [((150 : ℚ), (2 : ℚ))] ≤ 1) ∧
    dot_product 1 [((100 : ℚ), (1 : ℚ))] [((100 : ℚ), (1 : ℚ))] = 1 :=
  ⟨c2_similarity_bounds.1 Method.entropy_similarity 1
      [((100 : ℚ), (1 : ℚ)), ((200 : ℚ), (3 : ℚ))] [((150 : ℚ), (2 : ℚ))]
      (by decide) (by decide),
    c2_similarity_bounds.2 1 [((100 : ℚ), (1 : ℚ))] (by decide) (by decide) (by decide)⟩

/-! ## C1: database search selection -/

theorem betterHit_asymm (a b : RefEntry × ℝ × ℚ) (h1 : betterHit a b) : ¬ betterHit b a := by
  intro h2
  unfold betterHit at h1 h2
  rcases h1 with h1 | ⟨h1, h1p⟩ <;> rcases h2 with h2 | ⟨h2, h2p⟩ <;> linarith

theorem betterHit_negtrans (a b c : RefEntry × ℝ × ℚ)
    (h1 : ¬ betterHit a b) (h2 : ¬ betterHit b c) : ¬ betterHit a c := by
  unfold betterHit at h1 h2 ⊢
  push_neg at h1 h2 ⊢
  refine ⟨le_trans h1.1 h2.1, fun hac => ?_⟩
  have hba : b.2.1 ≤ a.2.1 := by rw [hac]; exact h2.1
  have hab : a.2.1 = b.2.1 := le_antisymm h1.1 hba
  have hbc : b.2.1 = c.2.1 := by rw [← hab, hac]
  exact le_trans (h2.2 hbc) (h1.2 hab)

/-- C1: for every feature, the search accepts exactly the MS1 candidate with
the highest similarity score, and only when that similarity is at least the
MS2 threshold, breaking similarity ties by smallest absolute ppm error; a
feature with no MS1 candidate, or whose best similarity is below the
threshold, lands in the unmatched output set and not in the matched set. -/
theorem c1_db_search (cfg : SearchConfig) (refs : List RefEntry) (f : Feature) :
    (∀ r s ppm, searchFeature cfg refs f = some (r, s, ppm) →
      r ∈ ms1Candidates cfg f refs ∧ s = scoreOf cfg f r ∧ ppm = candPpm f r ∧
      (cfg.threshold : ℝ) ≤ s ∧
      ∀ r2 ∈ ms1Candidates cfg f refs,
        scoreOf cfg f r2 < s ∨ (scoreOf cfg f r2 = s ∧ |ppm| ≤ |candPpm f r2|)) ∧
    (searchFeature cfg refs f = none ↔
      (ms1Candidates cfg f refs = [] ∨
        ∀ r2 ∈ ms1Candidates cfg f refs, scoreOf cfg f r2 < (cfg.threshold : ℝ))) ∧
    ∀ (features : List Feature), f ∈ features →
      ((searchFeature cfg refs f = none →
          f ∈ (dbSearch cfg refs features).2 ∧
          ∀ hit, (f, hit) ∉ (dbSearch cfg refs features).1) ∧
        (∀ hit, searchFeature cfg refs f = some hit →
          (f, hit) ∈ (dbSearch cfg refs features).1 ∧
          f ∉ (dbSearch cfg refs features).2)) := by
  refine ⟨?_, ?_, ?_⟩
  · intro r s ppm h
    unfold searchFeature at h
    cases hb : argBest betterHit
        ((ms1Candidates cfg f refs).map (fun r => (r, scoreOf cfg f r, candPpm f r))) with
    | none => rw [hb] at h; exact absurd h (by simp)
    | some hit =>
      rw [hb] at h
      dsimp only at h
      by_cases hth : (cfg.threshold : ℝ) ≤ hit.2.1
      · rw [if_pos hth] at h
        injection h with h
        subst h
        have hmem := argBest_mem hb
        rcases List.mem_map.mp hmem with ⟨r0, hr0, heq⟩
        injection heq with he1 he2
        injection he2 with he2 he3
        subst he1; subst he2; subst he3
        refine ⟨hr0, rfl, rfl, hth, ?_⟩
        intro r2 hr2
        have hnb := argBest_not_better betterHit_asymm betterHit_negtrans hb
          (r2, scoreOf cfg f r2, candPpm f r2) (List.mem_map_of_mem _ hr2)
        unfold betterHit at hnb
        push_neg at hnb
        dsimp only at hnb
        rcases lt_or_eq_of_le hnb.1 with hlt | heq2
        · exact Or.inl hlt
        · exact Or.inr ⟨heq2, hnb.2 heq2⟩
      · rw [if_neg hth] at h
        exact absurd h (by simp)
  · constructor
    · intro h
      unfold searchFeature at h
      cases hb : argBest betterHit
          ((ms1Candidates cfg f refs).map (fun r => (r, scoreOf cfg f r, candPpm f r))) with
      | none =>
        exact Or.inl (List.map_eq_nil_iff.mp (argBest_eq_none.mp hb))
      | some hit =>
        rw [hb] at h
        dsimp only at h
        by_cases hth : (cfg.threshold : ℝ) ≤ hit.2.1
        · rw [if_pos hth] at h; exact absurd h (by simp)
        · refine Or.inr (fun r2 hr2 => ?_)
          have hnb := argBest_not_better betterHit_asymm betterHit_negtrans hb
            (r2, scoreOf cfg f r2, candPpm f r2) (List.mem_map_of_mem _ hr2)
          unfold betterHit at hnb
          push_neg at hnb
          exact lt_of_le_of_lt hnb.1 (not_le.mp hth)
    · intro h
      unfold searchFeature
      rcases h with h | h
      · rw [h]; simp [argBest]
      · cases hb : argBest betterHit
            ((ms1Candidates cfg f refs).map (fun r => (r, scoreOf cfg f r, candPpm f r))) with
        | none => rfl
        | some hit =>
          have hmem := argBest_mem hb
          rcases List.mem_map.mp hmem with ⟨r0, hr0, heq⟩
          have hlt : hit.2.1 < (cfg.threshold : ℝ) := by
            rw [← heq]; exact h r0 hr0
          dsimp only
          rw [if_neg (not_le.mpr hlt)]
  · intro features hf
    constructor
    · intro hnone
      constructor
      · unfold dbSearch
        dsimp only
        exact List.mem_filter.mpr ⟨hf, by rw [hnone]; rfl⟩
      · intro hit hmem
        unfold dbSearch at hmem
        dsimp only at hmem
        rcases List.mem_filterMap.mp hmem with ⟨f2, _, hmap⟩
        rcases Option.map_eq_some'.mp hmap with ⟨h2, hh2, heq⟩
        injection heq with he1 he2
        subst he1
        rw [hnone] at hh2
        exact absurd hh2 (by simp)
    · intro hit hsome
      constructor
      · unfold dbSearch
        dsimp only
        exact List.mem_filterMap.mpr ⟨f, hf, by rw [hsome]; rfl⟩
      · intro hmem
        unfold dbSearch at hmem
        dsimp only at hmem
        have hq := (List.mem_filter.mp hmem).2
        rw [hsome] at hq
        exact absurd hq (by simp)

/-- Witness for C1: with an empty reference store, a concrete feature is not
matched, and the batch search places it in the unmatched output set. -/
theorem c1_db_search_witness :
    (⟨"F1", 760, "positive", "[M+H]+", []⟩ : Feature) ∈
      (dbSearch ⟨5/1000, false, 1/100, 7/10, Method.dot_product⟩ []
        [⟨"F1", 760, "positive", "[M+H]+", []⟩]).2 :=
  (((c1_db_search ⟨5/1000, false, 1/100, 7/10, Method.dot_product⟩ []
        ⟨"F1", 760, "positive", "[M+H]+", []⟩).2.2
      [⟨"F1", 760, "positive", "[M+H]+", []⟩] (List.mem_singleton.mpr rfl)).1 rfl).1

/-! ## C7: row-level error handling -/

/-- C7: a row whose adduct or class is unknown is marked invalid with every
chain-composition rank missing and the confidence missing, and no exception
propagates past the row (the resolver always returns an ordinary `.ok`
result, for every model and input); and a feature with no accepted database
match is an ordinary member of the unmatched output set, not an error. -/
theorem c7_error_handling :
    (∀ (model : ChainInput → List (List (ℕ × ℕ) × ℚ)) (inp : ChainInput),
      (inp.adduct ∉ knownAdducts ∨ classTable.lookup inp.clsName = none) →
        resolveRow model inp = .ok invalidRow ∧ invalidRow.valid = false ∧
        invalidRow.ranks = [none, none, none] ∧ invalidRow.confidence = none) ∧
    (∀ (model : ChainInput → List (List (ℕ × ℕ) × ℚ)) (inp : ChainInput),
      ∃ res, resolveRow model inp = .ok res) ∧
    (∀ (cfg : SearchConfig) (refs : List RefEntry) (features : List Feature) (f : Feature),
      f ∈ features → searchFeature cfg refs f = none →
        f ∈ (dbSearch cfg refs features).2) := by
  refine ⟨?_, ?_, ?_⟩
  · intro model inp h
    refine ⟨?_, rfl, rfl, rfl⟩
    unfold resolveRow
    cases hlk : classTable.lookup inp.clsName with
    | none => rfl
    | some cn =>
      rcases h with ha | hl
      · dsimp only
        rw [if_pos ha]
      · exact absurd hl (by rw [hlk]; exact fun hc => Option.noConfusion hc)
  · intro model inp
    unfold resolveRow
    cases hlk : classTable.lookup inp.clsName with
    | none => exact ⟨invalidRow, rfl⟩
    | some cn =>
      dsimp only
      by_cases ha : inp.adduct ∉ knownAdducts
      · rw [if_pos ha]; exact ⟨invalidRow, rfl⟩
      · rw [if_neg ha]
        by_cases hn : cn.2 = 1
        · rw [if_pos hn]
          cases hs : solveSingleChain ((classBackbone.lookup inp.clsName).getD 0)
              inp.neutralMass inp.tol with
          | none => exact ⟨_, rfl⟩
          | some p => exact ⟨_, rfl⟩
        · rw [if_neg hn]
          exact ⟨_, rfl⟩
  · intro cfg refs features f hf hnone
    unfold dbSearch
    dsimp only
    exact List.mem_filter.mpr ⟨hf, by rw [hnone]; rfl⟩

/-- Witness for C7 at a concrete row: an unknown adduct yields the invalid
decision with all fields missing, and no exception is raised. -/
theorem c7_error_handling_witness :
    resolveRow (fun _ => []) ⟨"[M+X]+", "PC", 760000000, 5000⟩ = .ok invalidRow ∧
      invalidRow.ranks = [none, none, none] ∧ invalidRow.confidence = none :=
  have h := c7_error_handling.1 (fun _ => []) ⟨"[M+X]+", "PC", 760000000, 5000⟩
    (Or.inl (by decide))
  ⟨h.1, h.2.2.1, h.2.2.2⟩

end LipidPlus
